import Mathlib

/-!
Shallow embedding of the markdown rendering pipeline of the `notes`
repository (package `markdown`, file `markdown.go`, together with the
earlier revision of the same module).  Strings are modelled as `List Char`;
Go `int` values (widths, line numbers) are modelled as `Int`.  The external
chroma highlighter and the repository's `styles` package (absent from the
provided sources) are treated as parameters, the latter additionally
instantiated by a palette modelled from the spec's ANSI escape-run
convention.
-/

/-- Strings are modelled as lists of characters. -/
abbrev Str := List Char

/-- The ASCII ESC control character (code 27). -/
def escChar : Char := '\x1b'

/-- Model of Go `strings.Split(s, sep)` for a one-character separator:
splitting the empty string yields `[[]]`, and a trailing separator yields a
trailing empty piece. -/
def splitGo (sep : Char) : Str → List Str
  | [] => [[]]
  | c :: cs =>
    if c = sep then [] :: splitGo sep cs
    else
      match splitGo sep cs with
      | [] => [[c]]
      | w :: ws => (c :: w) :: ws

/-- Model of Go `strings.HasPrefix`. -/
def hasPrefixGo : Str → Str → Bool
  | [], _ => true
  | _ :: _, [] => false
  | p :: ps, c :: cs => p = c && hasPrefixGo ps cs

/-- The ASCII white-space characters recognised by Go `unicode.IsSpace`
(the sources only ever meet ASCII white space). -/
def isSpaceGo (c : Char) : Bool :=
  c = ' ' || c = '\t' || c = '\n' || c = '\x0b' || c = '\x0c' || c = '\r'

/-- Model of Go `strings.TrimSpace`. -/
def trimSpaceGo (s : Str) : Str :=
  ((s.dropWhile isSpaceGo).reverse.dropWhile isSpaceGo).reverse

/-- Model of Go `strings.ToLower` (the sources only feed it ASCII hints). -/
def toLowerGo (s : Str) : Str := s.map Char.toLower

/-- The backtick character (code 96). -/
def btick : Char := Char.ofNat 96

/-- The code-fence token of three backticks. -/
def fenceTok : Str := [btick, btick, btick]

/-- Model of Go `strings.TrimPrefix(content, "```")`. -/
def trimFenceTok (s : Str) : Str :=
  if hasPrefixGo fenceTok s then s.drop 3 else s

/-- `LineType` from `markdown.go`; `normal` is the zero value (`iota` 0). -/
inductive LineType where
  | normal
  | header
  | codeFence
  | code
  | empty
  | comment
deriving DecidableEq

/-- `Line` from `markdown.go`: one source line plus derived metadata. -/
structure Line where
  content : Str
  type : LineType
  headerLevel : Nat
  codeLang : Str
deriving DecidableEq

/-- The inner loop of the header branch of `ParseLines`: walks the line,
counting the leading run of `'#'`; at the first other character, a space
(at the position right after the run) makes a header, anything else a
comment; if the loop runs off the end no type is assigned, leaving the Go
zero value `normal`. -/
def headerLoop (content : Str) (level j : Nat) : Str → Line
  | [] => { content := content, type := .normal, headerLevel := 0, codeLang := [] }
  | c :: cs =>
    if c = '#' then headerLoop content (level + 1) (j + 1) cs
    else if c = ' ' ∧ j = level then
      { content := trimSpaceGo (content.drop j), type := .header,
        headerLevel := level, codeLang := [] }
    else { content := content, type := .comment, headerLevel := 0, codeLang := [] }

/-- Classification of one line beginning with `'#'` (outside a fence). -/
def headerClassify (content : Str) : Line :=
  headerLoop content 0 0 content

/-- One step of `ParseLines`: classifies a single raw line given the fence
state `(inCodeBlock, codeLang)` and returns the classified line together
with the updated state. -/
def classifyLine (inCodeBlock : Bool) (codeLang : Str) (content : Str) :
    Line × Bool × Str :=
  if hasPrefixGo fenceTok content then
    if !inCodeBlock then
      ({ content := content, type := .codeFence, headerLevel := 0,
         codeLang := trimFenceTok content }, true, trimFenceTok content)
    else
      ({ content := content, type := .codeFence, headerLevel := 0,
         codeLang := [] }, false, [])
  else if inCodeBlock then
    ({ content := content, type := .code, headerLevel := 0,
       codeLang := codeLang }, inCodeBlock, codeLang)
  else if hasPrefixGo ['#'] content then
    (headerClassify content, inCodeBlock, codeLang)
  else if trimSpaceGo content = [] then
    ({ content := content, type := .empty, headerLevel := 0, codeLang := [] },
     inCodeBlock, codeLang)
  else
    ({ content := content, type := .normal, headerLevel := 0, codeLang := [] },
     inCodeBlock, codeLang)

/-- The classification pass of `ParseLines` over the split raw lines. -/
def parseGo (inCodeBlock : Bool) (codeLang : Str) : List Str → List Line
  | [] => []
  | c :: cs =>
    let r := classifyLine inCodeBlock codeLang c
    r.1 :: parseGo r.2.1 r.2.2 cs

/-- The fence state (`inCodeBlock`, `codeLang`) of `ParseLines` after
consuming a list of raw lines. -/
def parseStateAfter (inCodeBlock : Bool) (codeLang : Str) : List Str → Bool × Str
  | [] => (inCodeBlock, codeLang)
  | c :: cs =>
    let r := classifyLine inCodeBlock codeLang c
    parseStateAfter r.2.1 r.2.2 cs

/-- `ParseLines` from `markdown.go`: split the content on newlines and
classify each line in a single pass. -/
def parseLines (content : Str) : List Line :=
  parseGo false [] (splitGo '\n' content)

/-- The scanning loop of `estimateVisibleLength`: counts visible runes,
skipping everything from an ESC character to the next `'m'`. -/
def visibleAux : Bool → Str → Nat
  | _, [] => 0
  | true, c :: cs => if c = 'm' then visibleAux false cs else visibleAux true cs
  | false, c :: cs =>
    if c = escChar then visibleAux true cs else visibleAux false cs + 1

/-- `estimateVisibleLength` from `markdown.go`. -/
def estimateVisibleLength (s : Str) : Nat := visibleAux false s

/-- The final in-escape state of the scanner of `estimateVisibleLength`;
`escEnd false s = true` means `s` ends inside an unterminated escape run. -/
def escEnd : Bool → Str → Bool
  | st, [] => st
  | true, c :: cs => if c = 'm' then escEnd false cs else escEnd true cs
  | false, c :: cs => if c = escChar then escEnd true cs else escEnd false cs

/-- The word loop of `wrapLine` (current revision): greedy packing of the
space-split words, tracking the visible length of the line being built. -/
def wrapGo (width : Int) (acc : List Str) (currentLine : Str) (cur : Nat) :
    List Str → List Str
  | [] => if currentLine ≠ [] then acc ++ [currentLine] else acc
  | w :: ws =>
    let wv := estimateVisibleLength w
    if 0 < cur ∧ width < (cur : Int) + 1 + (wv : Int) then
      wrapGo width (acc ++ [currentLine]) w wv ws
    else if 0 < cur then
      wrapGo width acc ((currentLine ++ [' ']) ++ w) (cur + 1 + wv) ws
    else
      wrapGo width acc (currentLine ++ w) (cur + wv) ws

/-- `wrapLine` from `markdown.go` (current revision): a line whose visible
length fits is returned unchanged; otherwise the line is split on single
spaces and greedily re-packed. -/
def wrapLine (line : Str) (width : Int) : List Str :=
  if (estimateVisibleLength line : Int) ≤ width then [line]
  else wrapGo width [] [] 0 (splitGo ' ' line)

/-- The break characters of the earlier revision's `wrapLine`
(`" \t-,.:;!?)"`). -/
def v0BreakChars : Str := [' ', '\t', '-', ',', '.', ':', ';', '!', '?', ')']

/-- The inner break-point search of the earlier revision's `wrapLine`:
decrement `breakPoint` while the character before it is not a break
character. -/
def v0FindBreak (remaining : Str) : Nat → Nat
  | 0 => 0
  | b + 1 =>
    if v0BreakChars.contains (remaining.getD b ' ') then b + 1
    else v0FindBreak remaining b

/-- The outer loop of the earlier revision's `wrapLine`, with explicit fuel
(for every positive width the fuel `line.length + 1` is never exhausted,
since each pass removes at least one character). -/
def v0WrapGo (width : Int) : Nat → Str → List Str
  | 0, _ => []
  | fuel + 1, remaining =>
    if width < (remaining.length : Int) then
      let bp0 := v0FindBreak remaining width.toNat
      let bp := if bp0 = 0 then width.toNat else bp0
      remaining.take bp :: v0WrapGo width fuel (remaining.drop bp)
    else if remaining ≠ [] then [remaining] else []

/-- `wrapLine` from the earlier revision of the module (`part_000`): a hard
break at the raw length boundary, preferring the last break character
within budget.  Note that it measures the raw (escape-included) length. -/
def v0WrapLine (line : Str) (width : Int) : List Str :=
  if (line.length : Int) ≤ width then [line]
  else v0WrapGo width (line.length + 1) line

/-- Splits off everything before the first occurrence of `d`; `none` when
`d` does not occur.  Auxiliary for the substitution scanners below. -/
def takeUntilChar (d : Char) : Str → Option (Str × Str)
  | [] => none
  | c :: cs =>
    if c = d then some ([], cs)
    else (takeUntilChar d cs).map (fun r => (c :: r.1, r.2))

theorem takeUntilChar_len (d : Char) :
    ∀ (s pre post : Str), takeUntilChar d s = some (pre, post) →
      post.length < s.length := by
  intro s
  induction s with
  | nil => simp [takeUntilChar]
  | cons c cs ih =>
    intro pre post h
    simp only [takeUntilChar] at h
    split at h
    · simp only [Option.some.injEq, Prod.mk.injEq] at h
      simp [← h.2]
    · cases hC : takeUntilChar d cs with
      | none => rw [hC] at h; simp at h
      | some r =>
        rw [hC] at h
        simp only [Option.map_some', Option.some.injEq, Prod.mk.injEq] at h
        have := ih r.1 r.2 (by rw [hC])
        simp only [List.length_cons, ← h.2]
        omega

/-- Attempts to parse `label](url)` after an opening `'['`, mirroring the
Go regular expression `\[([^\]]+)\]\(([^)]+)\)`: a non-empty run of
non-`']'` characters, `']'`, `'('`, a non-empty run of non-`')'`
characters, `')'`.  (The greedy negated classes are forced: they always
run up to the next closing bracket.) -/
def tryLink (s : Str) : Option (Str × Str × Str) :=
  match takeUntilChar ']' s with
  | none => none
  | some (label, rest1) =>
    if label = [] then none
    else
      match rest1 with
      | c :: rest2 =>
        if c = '(' then
          match takeUntilChar ')' rest2 with
          | none => none
          | some (url, rest3) =>
            if url = [] then none else some (label, url, rest3)
        else none
      | [] => none

theorem tryLink_len (s label url rest : Str)
    (h : tryLink s = some (label, url, rest)) : rest.length < s.length := by
  unfold tryLink at h
  cases h1 : takeUntilChar ']' s with
  | none => rw [h1] at h; simp at h
  | some r1 =>
    obtain ⟨lab, rest1⟩ := r1
    rw [h1] at h
    dsimp only at h
    by_cases hl : lab = []
    · simp [hl] at h
    · rw [if_neg hl] at h
      cases rest1 with
      | nil => simp at h
      | cons c rest2 =>
        dsimp only at h
        by_cases hc : c = '('
        · rw [if_pos hc] at h
          cases h2 : takeUntilChar ')' rest2 with
          | none => rw [h2] at h; simp at h
          | some r2 =>
            obtain ⟨u, rest3⟩ := r2
            rw [h2] at h
            dsimp only at h
            by_cases hu : u = []
            · simp [hu] at h
            · rw [if_neg hu] at h
              simp only [Option.some.injEq, Prod.mk.injEq] at h
              obtain ⟨-, -, hR⟩ := h
              subst hR
              have hb := takeUntilChar_len ')' rest2 u rest3 h2
              have ha := takeUntilChar_len ']' s lab (c :: rest2) h1
              simp only [List.length_cons] at ha
              omega
        · rw [if_neg hc] at h
          simp at h

/-- The scanning loop of the link pass, with explicit fuel (the callers
always supply more fuel than the string length, and every step consumes at
least one character, by `tryLink_len`). -/
def replaceLinksF (styLabel styUrl : Str → Str) : Nat → Str → Str
  | 0, _ => []
  | _, [] => []
  | fuel + 1, c :: rest =>
    if c = '[' then
      match tryLink rest with
      | some r =>
        styLabel r.1 ++ [' '] ++ styUrl ('(' :: r.2.1 ++ [')']) ++
          replaceLinksF styLabel styUrl fuel r.2.2
      | none => c :: replaceLinksF styLabel styUrl fuel rest
    else c :: replaceLinksF styLabel styUrl fuel rest

/-- The link pass of `applyInlineFormatting`: replaces every occurrence of
`[label](url)` (per the Go pattern, label has no `']'`, url has no `')'`,
both non-empty) by styled label, a space, and the styled parenthesised
url; scanning resumes after each match. -/
def replaceLinks (styLabel styUrl : Str → Str) (s : Str) : Str :=
  replaceLinksF styLabel styUrl (s.length + 1) s

/-- Finds the earliest closing two-character delimiter `d d` in `s`,
returning the (lazily minimal) middle and the remainder after the closing
delimiter; fails when a newline intervenes (Go `.` does not match a
newline) or no closing pair exists. -/
def findClose2 (d : Char) : Str → Option (Str × Str)
  | c1 :: c2 :: rest =>
    if c1 = d ∧ c2 = d then some ([], rest)
    else if c1 = '\n' then none
    else (findClose2 d (c2 :: rest)).map (fun r => (c1 :: r.1, r.2))
  | _ => none

theorem findClose2_len (d : Char) :
    ∀ (s mid rest' : Str), findClose2 d s = some (mid, rest') →
      rest'.length < s.length := by
  intro s
  induction s with
  | nil => simp [findClose2]
  | cons c1 t ih =>
    cases t with
    | nil => simp [findClose2]
    | cons c2 rest =>
      intro mid rest' h
      simp only [findClose2] at h
      split at h
      · simp only [Option.some.injEq, Prod.mk.injEq] at h
        obtain ⟨-, hR⟩ := h
        subst hR
        simp only [List.length_cons]
        omega
      · split at h
        · simp at h
        · cases hC : findClose2 d (c2 :: rest) with
          | none => rw [hC] at h; simp at h
          | some r =>
            rw [hC] at h
            simp only [Option.map_some', Option.some.injEq, Prod.mk.injEq] at h
            obtain ⟨-, hR⟩ := h
            have := ih r.1 r.2 (by rw [hC])
            subst hR
            simp only [List.length_cons] at this ⊢
            omega

/-- The scanning loop of the two-character-delimiter pass, with explicit
fuel (sufficient by `findClose2_len`). -/
def replaceDelim2F (d : Char) (sty : Str → Str) : Nat → Str → Str
  | 0, _ => []
  | fuel + 1, c1 :: c2 :: rest =>
    if c1 = d ∧ c2 = d then
      match findClose2 d rest with
      | some r => sty r.1 ++ replaceDelim2F d sty fuel r.2
      | none => c1 :: replaceDelim2F d sty fuel (c2 :: rest)
    else c1 :: replaceDelim2F d sty fuel (c2 :: rest)
  | _, other => other

/-- One two-character-delimiter substitution pass (`**text**` with
`d = '*'`, `__text__` with `d = '_'`), mirroring the Go non-greedy
leftmost-first replace-all: on failure to close, scanning advances one
character. -/
def replaceDelim2 (d : Char) (sty : Str → Str) (s : Str) : Str :=
  replaceDelim2F d sty (s.length + 1) s

/-- Finds the earliest closing one-character delimiter `d`, with the same
newline restriction as `findClose2`. -/
def findClose1 (d : Char) : Str → Option (Str × Str)
  | [] => none
  | c :: cs =>
    if c = d then some ([], cs)
    else if c = '\n' then none
    else (findClose1 d cs).map (fun r => (c :: r.1, r.2))

theorem findClose1_len (d : Char) :
    ∀ (s mid rest' : Str), findClose1 d s = some (mid, rest') →
      rest'.length < s.length := by
  intro s
  induction s with
  | nil => simp [findClose1]
  | cons c cs ih =>
    intro mid rest' h
    simp only [findClose1] at h
    split at h
    · simp only [Option.some.injEq, Prod.mk.injEq] at h
      obtain ⟨-, hR⟩ := h
      subst hR
      simp only [List.length_cons]
      omega
    · split at h
      · simp at h
      · cases hC : findClose1 d cs with
        | none => rw [hC] at h; simp at h
        | some r =>
          rw [hC] at h
          simp only [Option.map_some', Option.some.injEq, Prod.mk.injEq] at h
          obtain ⟨-, hR⟩ := h
          have := ih r.1 r.2 (by rw [hC])
          subst hR
          simp only [List.length_cons] at this ⊢
          omega

/-- The scanning loop of the one-character-delimiter pass, with explicit
fuel (sufficient by `findClose1_len`). -/
def replaceDelim1F (d : Char) (sty : Str → Str) : Nat → Str → Str
  | 0, _ => []
  | _, [] => []
  | fuel + 1, c :: rest =>
    if c = d then
      match findClose1 d rest with
      | some r => sty r.1 ++ replaceDelim1F d sty fuel r.2
      | none => c :: replaceDelim1F d sty fuel rest
    else c :: replaceDelim1F d sty fuel rest

/-- One one-character-delimiter substitution pass (`*text*`, `_text_`),
mirroring the Go non-greedy leftmost-first replace-all. -/
def replaceDelim1 (d : Char) (sty : Str → Str) (s : Str) : Str :=
  replaceDelim1F d sty (s.length + 1) s

/-- Finds the earliest closing delimiter with a non-empty middle, for the
inline-code pattern `` `([^`]+)` `` (the negated class also spans
newlines). -/
def findCloseNE (d : Char) (s : Str) : Option (Str × Str) :=
  match takeUntilChar d s with
  | some ([], _) => none
  | some (mid, rest) => some (mid, rest)
  | none => none

theorem findCloseNE_len (d : Char) (s mid rest' : Str)
    (h : findCloseNE d s = some (mid, rest')) : rest'.length < s.length := by
  unfold findCloseNE at h
  cases hC : takeUntilChar d s with
  | none => rw [hC] at h; simp at h
  | some r =>
    obtain ⟨pre, post⟩ := r
    rw [hC] at h
    cases pre with
    | nil => simp at h
    | cons a as =>
      simp only [Option.some.injEq, Prod.mk.injEq] at h
      obtain ⟨-, hR⟩ := h
      subst hR
      exact takeUntilChar_len d s (a :: as) post hC

/-- The scanning loop of the inline-code pass, with explicit fuel
(sufficient by `findCloseNE_len`). -/
def replaceCodeF (sty : Str → Str) : Nat → Str → Str
  | 0, _ => []
  | _, [] => []
  | fuel + 1, c :: rest =>
    if c = btick then
      match findCloseNE btick rest with
      | some r => sty r.1 ++ replaceCodeF sty fuel r.2
      | none => c :: replaceCodeF sty fuel rest
    else c :: replaceCodeF sty fuel rest

/-- The inline-code substitution pass (`` `code` ``). -/
def replaceCode (sty : Str → Str) (s : Str) : Str :=
  replaceCodeF sty (s.length + 1) s

/-- The lipgloss styles the renderer takes from the repository's `styles`
package, as opaque string transformers: `Primary.Bold`, `Info`,
`Info.Bold`, `Accent`, `Accent.Italic`, `Text.Bold`, `Text.Italic`,
`Subtext0`, `Subtext0.Faint`, `Subtext1`. -/
structure Palette where
  primaryBold : Str → Str
  info : Str → Str
  infoBold : Str → Str
  accent : Str → Str
  accentItalic : Str → Str
  textBold : Str → Str
  textItalic : Str → Str
  subtext0 : Str → Str
  subtext0Faint : Str → Str
  subtext1 : Str → Str

/-- `applyInlineFormatting` from `markdown.go`: the five substitution
passes, in source order — links, `**`, `__`, `*`, `_`, then backtick
inline code. -/
def applyInlineFormatting (p : Palette) (text : Str) : Str :=
  let t1 := replaceLinks p.infoBold p.info text
  let t2 := replaceDelim2 '*' p.textBold t1
  let t3 := replaceDelim2 '_' p.textBold t2
  let t4 := replaceDelim1 '*' p.textItalic t3
  let t5 := replaceDelim1 '_' p.textItalic t4
  replaceCode p.accent t5

/-- `formatHeaderLine` from `markdown.go`. -/
def formatHeaderLine (p : Palette) (l : Line) : Str :=
  let content := applyInlineFormatting p l.content
  match l.headerLevel with
  | 1 => p.primaryBold content
  | 2 => p.info content
  | 3 => p.accentItalic content
  | 4 => p.accentItalic content
  | 5 => p.accentItalic content
  | 6 => p.accentItalic content
  | _ => content

/-- Modelled from the spec: the repository's `styles` package (not among
the provided sources) resolves each logical style to a lipgloss renderer
whose output is the input text surrounded by ANSI escape runs, "a string
that may interleave visible characters with ANSI escape sequences", each
run starting at ESC and ending at the next `m`.  `mkStyle code` wraps its
argument in `ESC[<code>m … ESC[0m`. -/
def mkStyle (code : Str) (s : Str) : Str :=
  escChar :: '[' :: (code ++ ('m' :: s)) ++ (escChar :: '[' :: '0' :: ['m'])

/-- Modelled from the spec: a concrete style palette following the ANSI
escape-run convention, with a distinct SGR code per logical style. -/
def stylesPalette : Palette where
  primaryBold := mkStyle ['1', ';', '3', '4']
  info := mkStyle ['3', '6']
  infoBold := mkStyle ['1', ';', '3', '6']
  accent := mkStyle ['3', '5']
  accentItalic := mkStyle ['3', ';', '3', '5']
  textBold := mkStyle ['1']
  textItalic := mkStyle ['3']
  subtext0 := mkStyle ['9', '0']
  subtext0Faint := mkStyle ['2', ';', '9', '0']
  subtext1 := mkStyle ['3', '7']

/-- Decimal digits of a natural number (fuel-based long division). -/
def natDigitsGo : Nat → Nat → Str
  | 0, _ => []
  | fuel + 1, n =>
    if n < 10 then [Char.ofNat (48 + n)]
    else natDigitsGo fuel (n / 10) ++ [Char.ofNat (48 + n % 10)]

/-- Decimal rendering of a Go `int`. -/
def intToStrGo (i : Int) : Str :=
  if i < 0 then '-' :: natDigitsGo (i.natAbs + 1) i.natAbs
  else natDigitsGo (i.toNat + 1) i.toNat

/-- Model of Go `fmt.Sprintf("%3d ", lineNum)`: the decimal rendering
right-aligned in (at least) three columns, followed by a space. -/
def fmtNum3 (n : Int) : Str :=
  List.replicate (3 - (intToStrGo n).length) ' ' ++ intToStrGo n ++ [' ']

/-- The chroma library surface used by `markdown.go`, as opaque
parameters: lexer lookup (`lexers.Get`), content analysis
(`lexers.Analyse`), the fallback lexer (`lexers.Fallback`), style lookup
(`chStyles.Get`), the fallback style (`chStyles.Fallback`), tokenisation
(`lexer.Tokenise`, `none` meaning an error), and formatting through the
`terminal256` formatter (`formatter.Format`, `none` meaning an error). -/
structure ChromaEnv (L S T : Type) where
  getLexer : Str → Option L
  analyse : Str → Option L
  fallbackLexer : L
  getStyle : Str → Option S
  fallbackStyle : S
  tokenise : L → Str → Option T
  format : S → T → Option Str

/-- `Model` from `markdown.go` (the fields the rendering pipeline reads;
`Style` is only a display name and is omitted; the chroma style pointer is
an optional opaque style). -/
structure Model (S : Type) where
  content : Str
  width : Int
  lines : List Line
  lineNumbers : Bool
  chromaStyle : Option S
  defaultLexer : Str
  terminalTheme : Str

/-- The lexer-selection chain of `syntaxHighlightWithChroma`: lexer by
normalized hint, else by content analysis, else the default lexer, else
the fallback lexer. -/
def selectLexer {L S T : Type} (env : ChromaEnv L S T) (m : Model S)
    (code normalizedLang : Str) : L :=
  match env.getLexer normalizedLang with
  | some l => l
  | none =>
    match env.analyse code with
    | some l => l
    | none =>
      match env.getLexer m.defaultLexer with
      | some l => l
      | none => env.fallbackLexer

/-- The style-selection chain of `syntaxHighlightWithChroma`: the model's
style if set, else a theme-dependent lookup, else the fallback style. -/
def selectStyle {L S T : Type} (env : ChromaEnv L S T) (m : Model S) : S :=
  match m.chromaStyle with
  | some s => s
  | none =>
    match (if m.terminalTheme = ['l', 'i', 'g', 'h', 't'] then
            env.getStyle ['g', 'i', 't', 'h', 'u', 'b']
          else
            env.getStyle
              ['c', 'a', 't', 'p', 'p', 'u', 'c', 'c', 'i', 'n', '-',
               'm', 'o', 'c', 'h', 'a']) with
    | some s => s
    | none => env.fallbackStyle

/-- `syntaxHighlightWithChroma` from `markdown.go`: empty or
all-whitespace code short-circuits to the empty string; otherwise the
language hint is lower-cased and trimmed, a lexer and style are selected,
and any tokenisation or formatting error returns the code unchanged. -/
def highlightWithChroma {L S T : Type} (env : ChromaEnv L S T) (m : Model S)
    (code language : Str) : Str :=
  if trimSpaceGo code = [] then []
  else
    let normalizedLang := toLowerGo (trimSpaceGo language)
    let lexer := selectLexer env m code normalizedLang
    let style := selectStyle env m
    match env.tokenise lexer code with
    | none => code
    | some it =>
      match env.format style it with
      | none => code
      | some out => out

/-- `highlightCodeBlock` from `markdown.go`: concatenate the block's lines
(each with a trailing newline), highlight, re-split on newlines, and pad
with empty strings up to the block length. -/
def highlightCodeBlock {L S T : Type} (env : ChromaEnv L S T) (m : Model S)
    (block : List Line) : List Str :=
  match block with
  | [] => []
  | b :: _ =>
    let code := (block.map (fun l => l.content ++ ['\n'])).flatten
    let highlighted := highlightWithChroma env m code b.codeLang
    let hls := splitGo '\n' highlighted
    hls ++ List.replicate (block.length - hls.length) []

/-- `addLineNumber` from `markdown.go`: prefix the dim right-aligned
line-number gutter when numbering is on. -/
def addLineNumber {S : Type} (p : Palette) (m : Model S) (lineNum : Int)
    (line : Str) : Str :=
  if !m.lineNumbers then line
  else p.subtext0 (fmtNum3 lineNum) ++ line

/-- The indexed emission of the flushed code block (`for j, hLine := range
highlightedLines`). -/
def mapIdxGo {α β : Type} (f : Nat → α → β) : Nat → List α → List β
  | _, [] => []
  | i, a :: as => f i a :: mapIdxGo f (i + 1) as

/-- The non-fence emission logic of `Render` (compacting variant): format
by line type, then wrap when the line is not code/comment, non-empty, and
its visible length exceeds the usable width; the first wrapped piece gets
the line number, continuation pieces a styled blank gutter.  (`headD []`
models the Go `wrappedLines[0]` access, which is only reached with a
non-empty wrap result.) -/
def emitPlain {S : Type} (p : Palette) (m : Model S) (i : Nat) (l : Line) :
    List Str :=
  let formattedLine :=
    match l.type with
    | .header => formatHeaderLine p l
    | .empty => []
    | .comment => p.subtext0Faint l.content
    | _ => applyInlineFormatting p l.content
  if l.type ≠ .code ∧ l.type ≠ .comment ∧ 0 < formattedLine.length then
    let availableWidth : Int := m.width - (if m.lineNumbers then 5 else 0)
    if availableWidth < (estimateVisibleLength formattedLine : Int) then
      let wrapped := wrapLine formattedLine availableWidth
      addLineNumber p m ((i : Int) + 1) (wrapped.headD []) ::
        (wrapped.drop 1).map (fun wj =>
          if m.lineNumbers then p.subtext0 [' ', ' ', ' ', ' '] ++ wj else wj)
    else [addLineNumber p m ((i : Int) + 1) formattedLine]
  else [addLineNumber p m ((i : Int) + 1) formattedLine]

/-- One iteration of the `Render` loop at 0-based index `i` with state
`(inCodeBlock, codeBlock)`: fence markers toggle the state (emitting the
highlighted block, addressed at `i - len(codeBlock) + j + 1`, on the
closing transition and never emitting the markers themselves); lines
inside a fence are buffered; other lines are emitted directly. -/
def renderStep {L S T : Type} (env : ChromaEnv L S T) (p : Palette)
    (m : Model S) (i : Nat) (st : Bool × List Line) (l : Line) :
    (Bool × List Line) × List Str :=
  if l.type = .codeFence then
    if !st.1 then ((true, []), [])
    else
      ((false, []),
       mapIdxGo
         (fun j h =>
           addLineNumber p m ((i : Int) - (st.2.length : Int) + (j : Int) + 1)
             ([' ', ' '] ++ h))
         0 ((highlightCodeBlock env m st.2).take st.2.length))
  else if st.1 then ((true, st.2 ++ [l]), [])
  else (st, emitPlain p m i l)

/-- The `Render` loop over the classified lines. -/
def renderGo {L S T : Type} (env : ChromaEnv L S T) (p : Palette)
    (m : Model S) : Nat → Bool × List Line → List Line → List Str
  | _, _, [] => []
  | i, st, l :: rest =>
    (renderStep env p m i st l).2 ++
      renderGo env p m (i + 1) (renderStep env p m i st l).1 rest

/-- The display lines emitted by `Render` (each written with a trailing
newline in the Go source). -/
def renderEmits {L S T : Type} (env : ChromaEnv L S T) (p : Palette)
    (m : Model S) : List Str :=
  renderGo env p m 0 (false, []) m.lines

/-- `Render` from `markdown.go` (compacting variant), as the final output
string. -/
def Render {L S T : Type} (env : ChromaEnv L S T) (p : Palette)
    (m : Model S) : Str :=
  ((renderEmits env p m).map (fun l => l ++ ['\n'])).flatten

/-- The non-fence emission logic of `RenderPreservingAll`: identical to
the compacting variant except that the wrap guard does not exclude code
lines. -/
def emitPlainPres {S : Type} (p : Palette) (m : Model S) (i : Nat)
    (l : Line) : List Str :=
  let formattedLine :=
    match l.type with
    | .header => formatHeaderLine p l
    | .empty => []
    | .comment => p.subtext0Faint l.content
    | _ => applyInlineFormatting p l.content
  if l.type ≠ .comment ∧ 0 < formattedLine.length then
    let availableWidth : Int := m.width - (if m.lineNumbers then 5 else 0)
    if availableWidth < (estimateVisibleLength formattedLine : Int) then
      let wrapped := wrapLine formattedLine availableWidth
      addLineNumber p m ((i : Int) + 1) (wrapped.headD []) ::
        (wrapped.drop 1).map (fun wj =>
          if m.lineNumbers then p.subtext0 [' ', ' ', ' ', ' '] ++ wj else wj)
    else [addLineNumber p m ((i : Int) + 1) formattedLine]
  else [addLineNumber p m ((i : Int) + 1) formattedLine]

/-- One iteration of the `RenderPreservingAll` loop: like `renderStep`,
but the fence markers are emitted (styled with `Subtext1`) and the flushed
block is addressed at `i - len(codeBlock) + j`. -/
def renderStepPres {L S T : Type} (env : ChromaEnv L S T) (p : Palette)
    (m : Model S) (i : Nat) (st : Bool × List Line) (l : Line) :
    (Bool × List Line) × List Str :=
  if l.type = .codeFence then
    if !st.1 then
      ((true, []), [addLineNumber p m ((i : Int) + 1) (p.subtext1 l.content)])
    else
      ((false, []),
       mapIdxGo
         (fun j h =>
           addLineNumber p m ((i : Int) - (st.2.length : Int) + (j : Int))
             ([' ', ' '] ++ h))
         0 ((highlightCodeBlock env m st.2).take st.2.length) ++
       [addLineNumber p m ((i : Int) + 1) (p.subtext1 l.content)])
  else if st.1 then ((true, st.2 ++ [l]), [])
  else (st, emitPlainPres p m i l)

/-- The `RenderPreservingAll` loop over the classified lines. -/
def renderGoPres {L S T : Type} (env : ChromaEnv L S T) (p : Palette)
    (m : Model S) : Nat → Bool × List Line → List Line → List Str
  | _, _, [] => []
  | i, st, l :: rest =>
    (renderStepPres env p m i st l).2 ++
      renderGoPres env p m (i + 1) (renderStepPres env p m i st l).1 rest

/-- The display lines emitted by `RenderPreservingAll`. -/
def renderEmitsPres {L S T : Type} (env : ChromaEnv L S T) (p : Palette)
    (m : Model S) : List Str :=
  renderGoPres env p m 0 (false, []) m.lines

/-- `RenderPreservingAll` from `markdown.go`, as the final output
string. -/
def RenderPreservingAll {L S T : Type} (env : ChromaEnv L S T) (p : Palette)
    (m : Model S) : Str :=
  ((renderEmitsPres env p m).map (fun l => l ++ ['\n'])).flatten

/-- A concrete chroma environment for closed test computations: lookup and
analysis always fail, tokenisation echoes the code, formatting prefixes an
`'H'`. -/
def testEnv : ChromaEnv Unit Unit Str where
  getLexer := fun _ => none
  analyse := fun _ => none
  fallbackLexer := ()
  getStyle := fun _ => none
  fallbackStyle := ()
  tokenise := fun _ c => some c
  format := fun _ t => some ('H' :: t)

/-- A model over given content, mirroring the defaults of `New` except for
the explicitly passed width and numbering flag (the chroma style pointer is
left unset so closed computations do not depend on a style value). -/
def mkModel (content : Str) (width : Int) (nums : Bool) : Model Unit :=
  { content := content, width := width, lines := parseLines content,
    lineNumbers := nums, chromaStyle := none,
    defaultLexer := ['t', 'e', 'x', 't'],
    terminalTheme := ['d', 'a', 'r', 'k'] }

theorem splitGo_ne_nil (sep : Char) (s : Str) : splitGo sep s ≠ [] := by
  cases s with
  | nil => simp [splitGo]
  | cons c cs =>
    simp only [splitGo]
    split
    · simp
    · split <;> simp

theorem visibleAux_append (a : Str) :
    ∀ (st : Bool) (b : Str),
      visibleAux st (a ++ b) = visibleAux st a + visibleAux (escEnd st a) b := by
  induction a with
  | nil => intro st b; simp [visibleAux, escEnd]
  | cons c cs ih =>
    intro st b
    cases st
    · by_cases hc : c = escChar <;> simp [visibleAux, escEnd, hc, ih] <;> omega
    · by_cases hc : c = 'm' <;> simp [visibleAux, escEnd, hc, ih] <;> omega

theorem escEnd_append (a : Str) :
    ∀ (st : Bool) (b : Str), escEnd st (a ++ b) = escEnd (escEnd st a) b := by
  induction a with
  | nil => intro st b; simp [escEnd]
  | cons c cs ih =>
    intro st b
    cases st
    · by_cases hc : c = escChar <;> simp [escEnd, hc, ih]
    · by_cases hc : c = 'm' <;> simp [escEnd, hc, ih]

theorem visibleAux_true_le (b : Str) : visibleAux true b ≤ visibleAux false b := by
  induction b with
  | nil => simp [visibleAux]
  | cons c cs ih =>
    have hme : ('m' : Char) ≠ escChar := by decide
    have hem : escChar ≠ 'm' := by decide
    by_cases hm : c = 'm'
    · subst hm
      simp [visibleAux, hme]
    · by_cases hesc : c = escChar
      · subst hesc
        simp [visibleAux, hem]
      · simp [visibleAux, hm, hesc]
        omega

theorem visible_append_le (a b : Str) :
    estimateVisibleLength (a ++ b) ≤
      estimateVisibleLength a + estimateVisibleLength b := by
  unfold estimateVisibleLength
  rw [visibleAux_append]
  cases h : escEnd false a
  · omega
  · have := visibleAux_true_le b
    omega

theorem headerLoop_replicate (content : Str) (n : Nat) :
    ∀ (level j : Nat) (rest : Str),
      headerLoop content level j (List.replicate n '#' ++ rest) =
        headerLoop content (level + n) (j + n) rest := by
  induction n with
  | zero => intro level j rest; simp
  | succ k ih =>
    intro level j rest
    rw [List.replicate_succ]
    show headerLoop content level j ('#' :: (List.replicate k '#' ++ rest)) = _
    rw [show headerLoop content level j ('#' :: (List.replicate k '#' ++ rest)) =
          headerLoop content (level + 1) (j + 1) (List.replicate k '#' ++ rest) from by
        simp [headerLoop]]
    rw [ih]
    congr 1 <;> omega

/-- C2 (amended): for a line outside a fence consisting of a run of `k ≥ 1`
hashes followed by `rest` (which does not begin with another hash), the
classifier yields: a `Header` with `headerLevel = k` — for every `k`, with
no upper bound of 6 — and whitespace-trimmed content whenever `rest` begins
with a space; a `Comment` whenever `rest` begins with any other character;
and the zero-value type `Normal` (not `Comment`) when the line consists of
hashes only. -/
theorem c2_hash_line_classification (k : Nat) (rest : Str) (hk : 1 ≤ k)
    (hrest : ∀ c, rest.head? = some c → c ≠ '#') :
    (rest.head? = some ' ' →
      (classifyLine false [] (List.replicate k '#' ++ rest)).1 =
        { content := trimSpaceGo rest, type := .header, headerLevel := k,
          codeLang := [] }) ∧
    (∀ c, rest.head? = some c → c ≠ ' ' →
      (classifyLine false [] (List.replicate k '#' ++ rest)).1 =
        { content := List.replicate k '#' ++ rest, type := .comment,
          headerLevel := 0, codeLang := [] }) ∧
    (rest = [] →
      (classifyLine false [] (List.replicate k '#' ++ rest)).1 =
        { content := List.replicate k '#' ++ rest, type := .normal,
          headerLevel := 0, codeLang := [] }) := by
  obtain ⟨k', rfl⟩ : ∃ k', k = k' + 1 := ⟨k - 1, by omega⟩
  have hshape : List.replicate (k' + 1) '#' ++ rest =
      '#' :: (List.replicate k' '#' ++ rest) := by
    simp [List.replicate_succ]
  have hfence : hasPrefixGo fenceTok (List.replicate (k' + 1) '#' ++ rest) = false := by
    rw [hshape]
    simp only [fenceTok, hasPrefixGo, Bool.and_eq_false_imp]
    intro hcontra
    exact absurd hcontra (by decide)
  have hhash : hasPrefixGo ['#'] (List.replicate (k' + 1) '#' ++ rest) = true := by
    rw [hshape]
    simp [hasPrefixGo]
  have hclassify : (classifyLine false [] (List.replicate (k' + 1) '#' ++ rest)).1 =
      headerClassify (List.replicate (k' + 1) '#' ++ rest) := by
    simp [classifyLine, hfence, hhash]
  have hloop : headerClassify (List.replicate (k' + 1) '#' ++ rest) =
      headerLoop (List.replicate (k' + 1) '#' ++ rest) (k' + 1) (k' + 1) rest := by
    unfold headerClassify
    rw [headerLoop_replicate]
    norm_num
  refine ⟨?_, ?_, ?_⟩
  · intro hsp
    cases rest with
    | nil => simp at hsp
    | cons c cs =>
      simp only [List.head?, Option.some.injEq] at hsp
      subst hsp
      rw [hclassify, hloop]
      simp only [headerLoop]
      rw [if_neg (by decide : ¬(' ' = '#')), if_pos (by simp)]
      have hdrop : (List.replicate (k' + 1) '#' ++ (' ' :: cs)).drop (k' + 1) =
          ' ' :: cs := by
        have := List.drop_left (List.replicate (k' + 1) '#') (' ' :: cs)
        simpa using this
      rw [hdrop]
  · intro c hc hcsp
    cases rest with
    | nil => simp at hc
    | cons c0 cs =>
      simp only [List.head?, Option.some.injEq] at hc
      subst hc
      have h1 : c0 ≠ '#' := hrest c0 rfl
      rw [hclassify, hloop]
      simp only [headerLoop]
      rw [if_neg h1, if_neg (by simp [hcsp])]
  · intro h
    subst h
    rw [hclassify, hloop]
    simp [headerLoop]

/-- C2 counterexample: the classifier types `"####### x"` as a `Header`
with level 7 (the claim requires `Comment` for runs longer than six), and
`"###"` as `Normal` (the claim requires `Comment` for hash-only lines). -/
theorem c2_counterexample :
    parseLines ['#', '#', '#', '#', '#', '#', '#', ' ', 'x'] =
      [{ content := ['x'], type := .header, headerLevel := 7, codeLang := [] }] ∧
    parseLines ['#', '#', '#'] =
      [{ content := ['#', '#', '#'], type := .normal, headerLevel := 0,
         codeLang := [] }] := by
  decide

/-- Witness for `c2_hash_line_classification` at concrete inputs. -/
theorem c2_witness :
    (classifyLine false [] (List.replicate 3 '#' ++ [' ', 'T'])).1 =
      { content := ['T'], type := .header, headerLevel := 3, codeLang := [] } ∧
    (classifyLine false [] (List.replicate 2 '#' ++ ['T'])).1 =
      { content := List.replicate 2 '#' ++ ['T'], type := .comment,
        headerLevel := 0, codeLang := [] } ∧
    (classifyLine false [] (List.replicate 4 '#' ++ [])).1 =
      { content := List.replicate 4 '#' ++ [], type := .normal,
        headerLevel := 0, codeLang := [] } := by
  refine ⟨?_, ?_, ?_⟩
  · exact ((c2_hash_line_classification 3 [' ', 'T'] (by decide)
      (by intro c hc; simp at hc; subst hc; decide)).1 (by decide)).trans
      (by decide)
  · exact (c2_hash_line_classification 2 ['T'] (by decide)
      (by intro c hc; simp at hc; subst hc; decide)).2.1 'T' (by decide)
      (by decide)
  · exact (c2_hash_line_classification 4 [] (by decide)
      (by intro c hc; simp at hc)).2.2 rfl

theorem classifyLine_marker_open (lang l : Str)
    (h : hasPrefixGo fenceTok l = true) :
    classifyLine false lang l =
      ({ content := l, type := .codeFence, headerLevel := 0,
         codeLang := trimFenceTok l }, true, trimFenceTok l) := by
  simp [classifyLine, h]

theorem classifyLine_marker_close (lang l : Str)
    (h : hasPrefixGo fenceTok l = true) :
    classifyLine true lang l =
      ({ content := l, type := .codeFence, headerLevel := 0,
         codeLang := [] }, false, []) := by
  simp [classifyLine, h]

theorem classifyLine_inside (lang l : Str)
    (h : hasPrefixGo fenceTok l = false) :
    classifyLine true lang l =
      ({ content := l, type := .code, headerLevel := 0, codeLang := lang },
       true, lang) := by
  simp [classifyLine, h]

theorem classifyLine_state_outside (lang l : Str)
    (h : hasPrefixGo fenceTok l = false) :
    (classifyLine false lang l).2 = (false, lang) := by
  simp only [classifyLine, h, Bool.false_eq_true, if_false, if_neg]
  split
  · simp
  · split <;> simp

theorem parseGo_length : ∀ (ls : List Str) (inC : Bool) (lang : Str),
    (parseGo inC lang ls).length = ls.length := by
  intro ls
  induction ls with
  | nil => intro inC lang; simp [parseGo]
  | cons c cs ih => intro inC lang; simp [parseGo, ih]

theorem parseGo_append : ∀ (xs : List Str) (inC : Bool) (lang : Str)
    (ys : List Str),
    parseGo inC lang (xs ++ ys) =
      parseGo inC lang xs ++
        parseGo (parseStateAfter inC lang xs).1 (parseStateAfter inC lang xs).2
          ys := by
  intro xs
  induction xs with
  | nil => intro inC lang ys; simp [parseGo, parseStateAfter]
  | cons c cs ih =>
    intro inC lang ys
    simp only [List.cons_append, parseGo, parseStateAfter, List.cons.injEq,
      true_and]
    exact ih _ _ ys

theorem parseStateAfter_append : ∀ (xs : List Str) (inC : Bool) (lang : Str)
    (ys : List Str),
    parseStateAfter inC lang (xs ++ ys) =
      parseStateAfter (parseStateAfter inC lang xs).1
        (parseStateAfter inC lang xs).2 ys := by
  intro xs
  induction xs with
  | nil => intro inC lang ys; simp [parseStateAfter]
  | cons c cs ih =>
    intro inC lang ys
    simp only [List.cons_append, parseStateAfter]
    exact ih _ _ ys

theorem parseStateAfter_inside : ∀ (ls : List Str) (lang : Str),
    (∀ l ∈ ls, hasPrefixGo fenceTok l = false) →
    parseStateAfter true lang ls = (true, lang) := by
  intro ls
  induction ls with
  | nil => intro lang _; rfl
  | cons c cs ih =>
    intro lang h
    have hc := h c (by simp)
    simp only [parseStateAfter, classifyLine_inside lang c hc]
    exact ih lang (fun l hl => h l (by simp [hl]))

theorem parseGo_get (inC : Bool) (lang : Str) (pre : List Str) (l : Str)
    (post : List Str) :
    (parseGo inC lang (pre ++ l :: post))[pre.length]? =
      some (classifyLine (parseStateAfter inC lang pre).1
        (parseStateAfter inC lang pre).2 l).1 := by
  rw [parseGo_append]
  rw [List.getElem?_append_right (by rw [parseGo_length])]
  rw [parseGo_length]
  simp [parseGo]

theorem parseStateAfter_singleton (b : Bool) (lang l : Str) :
    parseStateAfter b lang [l] = (classifyLine b lang l).2 := rfl

/-- C4 (confirmed): the classifier is a single pass over the split lines
whose only state is the pair (inside-fence flag, current fence language):
it yields one `Line` per raw line; every line starting with the fence
token is typed `CodeFenceMarker` and toggles the flag (never `Code`, even
inside a fence, and an opening marker records its trimmed language in the
state); every non-marker line while the flag is set is typed `Code` with
the language inherited from the state set at the opening marker; and when
the input ends with the fence still open (no further marker), every
remaining line is typed `Code` with that language — no error value
exists. -/
theorem c4_classifier_single_pass (content : Str) :
    (parseLines content).length = (splitGo '\n' content).length ∧
    (∀ pre l post, splitGo '\n' content = pre ++ l :: post →
      ((parseStateAfter false [] (pre ++ [l])).1 =
        (if hasPrefixGo fenceTok l = true then !(parseStateAfter false [] pre).1
         else (parseStateAfter false [] pre).1)) ∧
      (hasPrefixGo fenceTok l = true →
        (parseLines content)[pre.length]? = some
          { content := l, type := .codeFence, headerLevel := 0,
            codeLang := if (parseStateAfter false [] pre).1 then []
                        else trimFenceTok l } ∧
        ((parseStateAfter false [] pre).1 = false →
          (parseStateAfter false [] (pre ++ [l])).2 = trimFenceTok l)) ∧
      (hasPrefixGo fenceTok l = false →
        (parseStateAfter false [] pre).1 = true →
        (parseLines content)[pre.length]? = some
          { content := l, type := .code, headerLevel := 0,
            codeLang := (parseStateAfter false [] pre).2 })) ∧
    (∀ pre post, splitGo '\n' content = pre ++ post →
      (parseStateAfter false [] pre).1 = true →
      (∀ l ∈ post, hasPrefixGo fenceTok l = false) →
      ∀ mid l post2, post = mid ++ l :: post2 →
        (parseLines content)[pre.length + mid.length]? = some
          { content := l, type := .code, headerLevel := 0,
            codeLang := (parseStateAfter false [] pre).2 }) := by
  refine ⟨by rw [parseLines, parseGo_length], ?_, ?_⟩
  · intro pre l post hsplit
    have hstep : parseStateAfter false [] (pre ++ [l]) =
        (classifyLine (parseStateAfter false [] pre).1
          (parseStateAfter false [] pre).2 l).2 := by
      rw [parseStateAfter_append, parseStateAfter_singleton]
    have hgetC : (parseLines content)[pre.length]? =
        some (classifyLine (parseStateAfter false [] pre).1
          (parseStateAfter false [] pre).2 l).1 := by
      rw [parseLines, hsplit]
      exact parseGo_get false [] pre l post
    refine ⟨?_, ?_, ?_⟩
    · rw [hstep]
      by_cases hm : hasPrefixGo fenceTok l = true
      · cases hb : (parseStateAfter false [] pre).1
        · rw [classifyLine_marker_open _ l hm]
          simp [hm]
        · rw [classifyLine_marker_close _ l hm]
          simp [hm]
      · have hm' : hasPrefixGo fenceTok l = false := by simpa using hm
        cases hb : (parseStateAfter false [] pre).1
        · rw [classifyLine_state_outside _ l hm']
          simp [hm']
        · rw [classifyLine_inside _ l hm']
          simp [hm']
    · intro hm
      constructor
      · rw [hgetC]
        cases hb : (parseStateAfter false [] pre).1
        · rw [classifyLine_marker_open _ l hm]
          simp
        · rw [classifyLine_marker_close _ l hm]
          simp
      · intro hb
        rw [hstep, hb, classifyLine_marker_open _ l hm]
    · intro hm hb
      rw [hgetC, hb, classifyLine_inside _ l hm]
  · intro pre post hsplit hb hnm mid l post2 hpost
    rcases hp : parseStateAfter false [] pre with ⟨b, lang⟩
    have hb' : b = true := by rw [hp] at hb; exact hb
    subst hb'
    have hmid : ∀ x ∈ mid, hasPrefixGo fenceTok x = false := by
      intro x hx
      exact hnm x (by rw [hpost]; simp [hx])
    have hl : hasPrefixGo fenceTok l = false := hnm l (by rw [hpost]; simp)
    have hsplit2 : splitGo '\n' content = (pre ++ mid) ++ l :: post2 := by
      rw [hsplit, hpost]
      simp
    have hstmid : parseStateAfter false [] (pre ++ mid) = (true, lang) := by
      rw [parseStateAfter_append, hp]
      exact parseStateAfter_inside mid lang hmid
    have hget : (parseLines content)[(pre ++ mid).length]? =
        some (classifyLine (parseStateAfter false [] (pre ++ mid)).1
          (parseStateAfter false [] (pre ++ mid)).2 l).1 := by
      rw [parseLines, hsplit2]
      exact parseGo_get false [] (pre ++ mid) l post2
    rw [hstmid] at hget
    rw [show pre.length + mid.length = (pre ++ mid).length from by simp]
    rw [hget]
    simp [classifyLine_inside lang l hl]

/-- Witness for `c4_classifier_single_pass` on the ragged input
`"```go\nx\n"` (fence opened with language `go`, never closed). -/
theorem c4_witness :
    (parseLines [btick, btick, btick, 'g', 'o', '\n', 'x', '\n'])[1]? =
      some { content := ['x'], type := .code, headerLevel := 0,
             codeLang := ['g', 'o'] } ∧
    (parseStateAfter false [] ([] ++ [[btick, btick, btick, 'g', 'o']])).1 =
      (if hasPrefixGo fenceTok [btick, btick, btick, 'g', 'o'] = true then
        !(parseStateAfter false [] []).1
      else (parseStateAfter false [] []).1) := by
  constructor
  · have h := (c4_classifier_single_pass
      [btick, btick, btick, 'g', 'o', '\n', 'x', '\n']).2.2
      [[btick, btick, btick, 'g', 'o']] [['x'], []] (by decide) (by decide)
      (by decide) [] ['x'] [[]] rfl
    exact h.trans (by decide)
  · exact ((c4_classifier_single_pass
      [btick, btick, btick, 'g', 'o', '\n', 'x', '\n']).2.1 []
      [btick, btick, btick, 'g', 'o'] [['x'], []] (by decide)).1

theorem wrapGo_mem_bound (width : Int) (W : List Str) (hW : W ≠ []) :
    ∀ (ws acc : List Str) (cl : Str) (cur : Nat),
      (∀ x ∈ ws, x ∈ W) →
      (∀ el ∈ acc, (estimateVisibleLength el : Int) ≤ width ∨
        ∃ w ∈ W, width < (estimateVisibleLength w : Int) ∧
          estimateVisibleLength el ≤ estimateVisibleLength w) →
      estimateVisibleLength cl ≤ cur →
      (cur = 0 ∨ (cur : Int) ≤ width ∨
        ∃ w ∈ W, width < (estimateVisibleLength w : Int) ∧
          cur ≤ estimateVisibleLength w) →
      ∀ el ∈ wrapGo width acc cl cur ws,
        (estimateVisibleLength el : Int) ≤ width ∨
        ∃ w ∈ W, width < (estimateVisibleLength w : Int) ∧
          estimateVisibleLength el ≤ estimateVisibleLength w := by
  intro ws
  induction ws with
  | nil =>
    intro acc cl cur hws hacc hcl hcur el hel
    simp only [wrapGo] at hel
    split at hel
    · rw [List.mem_append] at hel
      rcases hel with h | h
      · exact hacc el h
      · simp only [List.mem_singleton] at h
        subst h
        rcases hcur with h0 | hle | ⟨w, hwW, hwgt, hwle⟩
        · by_cases hw0 : (0 : Int) ≤ width
          · left; omega
          · obtain ⟨w, hw⟩ := List.exists_mem_of_ne_nil W hW
            exact Or.inr ⟨w, hw, by omega, by omega⟩
        · left; omega
        · exact Or.inr ⟨w, hwW, hwgt, by omega⟩
    · exact hacc el hel
  | cons w ws ih =>
    intro acc cl cur hws hacc hcl hcur el hel
    have hwW : w ∈ W := hws w (by simp)
    have hwsW : ∀ x ∈ ws, x ∈ W := fun x hx => hws x (by simp [hx])
    simp only [wrapGo] at hel
    split at hel
    · rename_i hcond
      refine ih (acc ++ [cl]) w (estimateVisibleLength w) hwsW ?_ le_rfl ?_ el hel
      · intro el2 hel2
        rw [List.mem_append] at hel2
        rcases hel2 with h | h
        · exact hacc el2 h
        · simp only [List.mem_singleton] at h
          subst h
          rcases hcur with h0 | hle | ⟨w2, hw2, hgt2, hle2⟩
          · exact absurd h0 (by omega)
          · left; omega
          · exact Or.inr ⟨w2, hw2, hgt2, by omega⟩
      · by_cases hb : (estimateVisibleLength w : Int) ≤ width
        · exact Or.inr (Or.inl hb)
        · exact Or.inr (Or.inr ⟨w, hwW, by omega, le_rfl⟩)
    · split at hel
      · rename_i hcond hpos
        have h1 : estimateVisibleLength ((cl ++ [' ']) ++ w) ≤
            cur + 1 + estimateVisibleLength w := by
          have ha := visible_append_le (cl ++ [' ']) w
          have hb := visible_append_le cl [' ']
          have hsp : estimateVisibleLength [' '] = 1 := by rfl
          omega
        refine ih acc _ _ hwsW hacc h1 ?_ el hel
        have h2 : ((cur + 1 + estimateVisibleLength w : Nat) : Int) ≤ width := by
          push_neg at hcond
          have := hcond hpos
          push_cast
          push_cast at this
          omega
        exact Or.inr (Or.inl h2)
      · rename_i hcond hpos
        have hcur0 : cur = 0 := by omega
        have h1 : estimateVisibleLength (cl ++ w) ≤
            cur + estimateVisibleLength w := by
          have := visible_append_le cl w
          omega
        refine ih acc _ _ hwsW hacc h1 ?_ el hel
        by_cases hb : ((cur + estimateVisibleLength w : Nat) : Int) ≤ width
        · exact Or.inr (Or.inl hb)
        · refine Or.inr (Or.inr ⟨w, hwW, by omega, by omega⟩)

/-- C5 (confirmed): every element of `wrapLine s w` has visible
(escape-excluded) length at most `w`, except that an element may exceed
`w` only on account of a single space-split word of `s` whose visible
length alone exceeds `w` (and the element's visible length is at most that
word's); an input whose visible length already fits is returned unchanged
as a one-element sequence; and re-wrapping the first element is the
identity whenever that element fits. -/
theorem c5_wrap_contract (s : Str) (width : Int) :
    (∀ el ∈ wrapLine s width,
      (estimateVisibleLength el : Int) ≤ width ∨
      ∃ w ∈ splitGo ' ' s, width < (estimateVisibleLength w : Int) ∧
        estimateVisibleLength el ≤ estimateVisibleLength w) ∧
    ((estimateVisibleLength s : Int) ≤ width → wrapLine s width = [s]) ∧
    (∀ h0, (wrapLine s width).head? = some h0 →
      (estimateVisibleLength h0 : Int) ≤ width → wrapLine h0 width = [h0]) := by
  refine ⟨?_, ?_, ?_⟩
  · intro el hel
    unfold wrapLine at hel
    split at hel
    · rename_i hfit
      simp only [List.mem_singleton] at hel
      subst hel
      exact Or.inl hfit
    · exact wrapGo_mem_bound width (splitGo ' ' s) (splitGo_ne_nil ' ' s)
        (splitGo ' ' s) [] [] 0 (fun x hx => hx) (by simp)
        (Nat.le_refl 0) (Or.inl rfl) el hel
  · intro hfit
    unfold wrapLine
    rw [if_pos hfit]
  · intro h0 _ hfit
    unfold wrapLine
    rw [if_pos hfit]

/-- Witness for `c5_wrap_contract` at concrete inputs: the oversize word
case (`"aaa b"` at width 2), the already-fitting case, and the
idempotence case on the first element of `wrapLine "ab cd" 2`. -/
theorem c5_witness :
    ((estimateVisibleLength ['a', 'a', 'a'] : Int) ≤ 2 ∨
      ∃ w ∈ splitGo ' ' ['a', 'a', 'a', ' ', 'b'],
        2 < (estimateVisibleLength w : Int) ∧
          estimateVisibleLength ['a', 'a', 'a'] ≤ estimateVisibleLength w) ∧
    wrapLine ['a', 'b'] 5 = [['a', 'b']] ∧
    wrapLine ['a', 'b'] 2 = [['a', 'b']] := by
  refine ⟨?_, ?_, ?_⟩
  · exact (c5_wrap_contract ['a', 'a', 'a', ' ', 'b'] 2).1 ['a', 'a', 'a']
      (by decide)
  · exact (c5_wrap_contract ['a', 'b'] 5).2.1 (by decide)
  · exact (c5_wrap_contract ['a', 'b', ' ', 'c', 'd'] 2).2.2 ['a', 'b']
      (by decide) (by decide)

theorem visibleAux_skip_run (body : Str) :
    ∀ (s : Str), 'm' ∉ body →
      visibleAux true (body ++ 'm' :: s) = visibleAux false s := by
  induction body with
  | nil => intro s _; simp [visibleAux]
  | cons c cs ih =>
    intro s h
    have hc : c ≠ 'm' := by intro hc; exact h (by simp [hc])
    simp only [List.cons_append, visibleAux, if_neg hc]
    exact ih s (fun hm => h (by simp [hm]))

theorem wrapGo_clean (width : Int) :
    ∀ (ws acc : List Str) (cl : Str) (cur : Nat),
      (∀ x ∈ ws, escEnd false x = false) →
      (∀ el ∈ acc, escEnd false el = false) →
      escEnd false cl = false →
      ∀ el ∈ wrapGo width acc cl cur ws, escEnd false el = false := by
  intro ws
  induction ws with
  | nil =>
    intro acc cl cur _ hacc hcl el hel
    simp only [wrapGo] at hel
    split at hel
    · rw [List.mem_append] at hel
      rcases hel with h | h
      · exact hacc el h
      · simp only [List.mem_singleton] at h
        subst h
        exact hcl
    · exact hacc el hel
  | cons w ws ih =>
    intro acc cl cur hws hacc hcl el hel
    have hwc : escEnd false w = false := hws w (by simp)
    have hwsc : ∀ x ∈ ws, escEnd false x = false := fun x hx => hws x (by simp [hx])
    simp only [wrapGo] at hel
    split at hel
    · refine ih (acc ++ [cl]) w _ hwsc ?_ hwc el hel
      intro el2 hel2
      rw [List.mem_append] at hel2
      rcases hel2 with h | h
      · exact hacc el2 h
      · simp only [List.mem_singleton] at h
        subst h
        exact hcl
    · split at hel
      · refine ih acc _ _ hwsc hacc ?_ el hel
        rw [escEnd_append, escEnd_append, hcl]
        have hsp : escEnd false [' '] = false := by decide
        rw [hsp, hwc]
      · refine ih acc _ _ hwsc hacc ?_ el hel
        rw [escEnd_append, hcl, hwc]

/-- C6 (amended): with the current `estimateVisibleLength`, a complete
escape run (ESC up to the next `'m'`) counts as zero visible width; and
the word-based greedy packer (`wrapLine`, current revision) emits no
element ending inside an escape run whenever the input's runs are complete
and no run is cut by the space-splitting (no run contains a space).  The
hard-break variant of the earlier revision carries no such guarantee: it
measures raw character length and can cut a run (see the
counterexample). -/
theorem c6_escape_handling :
    (∀ (body s : Str), 'm' ∉ body →
      estimateVisibleLength (escChar :: body ++ 'm' :: s) =
        estimateVisibleLength s) ∧
    (∀ (s : Str) (width : Int),
      escEnd false s = false →
      (∀ w ∈ splitGo ' ' s, escEnd false w = false) →
      ∀ el ∈ wrapLine s width, escEnd false el = false) := by
  constructor
  · intro body s h
    show visibleAux false (escChar :: (body ++ 'm' :: s)) = _
    simp only [visibleAux, if_pos rfl]
    exact visibleAux_skip_run body s h
  · intro s width hs hw el hel
    unfold wrapLine at hel
    split at hel
    · simp only [List.mem_singleton] at hel
      subst hel
      exact hs
    · exact wrapGo_clean width (splitGo ' ' s) [] [] 0 hw (by simp) rfl el hel

/-- C6 counterexample: the input `"a" ESC "[31m" "bb"` has only complete
escape runs, yet the earlier revision's `wrapLine` at width 3 (which
measures raw length, not visible length) returns a first element `"a" ESC
"["` that ends inside the escape run. -/
theorem c6_counterexample :
    escEnd false ['a', escChar, '[', '3', '1', 'm', 'b', 'b'] = false ∧
    v0WrapLine ['a', escChar, '[', '3', '1', 'm', 'b', 'b'] 3 =
      [['a', escChar, '['], ['3', '1', 'm'], ['b', 'b']] ∧
    escEnd false ['a', escChar, '['] = true := by
  decide

/-- Witness for `c6_escape_handling` at concrete inputs. -/
theorem c6_witness :
    estimateVisibleLength (escChar :: ['[', '3', '1'] ++ 'm' :: ['x']) =
      estimateVisibleLength ['x'] ∧
    escEnd false ['x', escChar, '[', '3', '1', 'm'] = false := by
  constructor
  · exact c6_escape_handling.1 ['[', '3', '1'] ['x'] (by decide)
  · exact c6_escape_handling.2 ['x', escChar, '[', '3', '1', 'm'] 0
      (by decide) (by decide) ['x', escChar, '[', '3', '1', 'm'] (by decide)

theorem wrapGo_len_ge_acc (width : Int) :
    ∀ (ws acc : List Str) (cl : Str) (cur : Nat),
      acc.length ≤ (wrapGo width acc cl cur ws).length := by
  intro ws
  induction ws with
  | nil =>
    intro acc cl cur
    simp only [wrapGo]
    split <;> simp
  | cons w ws ih =>
    intro acc cl cur
    simp only [wrapGo]
    split
    · calc acc.length ≤ (acc ++ [cl]).length := by simp
        _ ≤ _ := ih _ _ _
    · split
      · exact ih _ _ _
      · exact ih _ _ _

theorem wrapGo_len_cl_ne_nil (width : Int) :
    ∀ (ws acc : List Str) (cl : Str) (cur : Nat), cl ≠ [] →
      acc.length + 1 ≤ (wrapGo width acc cl cur ws).length := by
  intro ws
  induction ws with
  | nil =>
    intro acc cl cur hcl
    simp only [wrapGo]
    rw [if_pos hcl]
    simp
  | cons w ws ih =>
    intro acc cl cur hcl
    simp only [wrapGo]
    split
    · calc acc.length + 1 = (acc ++ [cl]).length := by simp
        _ ≤ _ := wrapGo_len_ge_acc width ws (acc ++ [cl]) w _
    · split
      · exact ih _ _ _ (by simp)
      · refine ih _ _ _ ?_
        intro hcontra
        exact hcl (List.append_eq_nil.mp hcontra).1

theorem wrapGo_len_one_pos (width : Int) :
    ∀ (ws acc : List Str) (cl : Str) (cur : Nat),
      1 ≤ ws.countP (fun w => decide (0 < estimateVisibleLength w)) →
      acc.length + 1 ≤ (wrapGo width acc cl cur ws).length := by
  intro ws
  induction ws with
  | nil => intro acc cl cur h; simp [List.countP_nil] at h
  | cons w ws ih =>
    intro acc cl cur h
    simp only [wrapGo]
    split
    · calc acc.length + 1 = (acc ++ [cl]).length := by simp
        _ ≤ _ := wrapGo_len_ge_acc width ws (acc ++ [cl]) w _
    · by_cases hwpos : 0 < estimateVisibleLength w
      · have hwne : w ≠ [] := by
          intro hcontra
          subst hcontra
          simp [estimateVisibleLength, visibleAux] at hwpos
        split
        · exact wrapGo_len_cl_ne_nil width ws acc _ _ (by simp)
        · refine wrapGo_len_cl_ne_nil width ws acc _ _ ?_
          intro hcontra
          exact hwne (List.append_eq_nil.mp hcontra).2
      · have hcount : 1 ≤ ws.countP (fun w => decide (0 < estimateVisibleLength w)) := by
          have hpw : decide (0 < estimateVisibleLength w) = false := by
            simp [hwpos]
          rw [List.countP_cons, hpw] at h
          simp only [Bool.false_eq_true, if_false, Nat.add_zero] at h
          omega
        split
        · exact ih _ _ _ hcount
        · exact ih _ _ _ hcount

theorem wrapGo_len_cur_pos (width : Int) (hw : width ≤ 0) :
    ∀ (ws acc : List Str) (cl : Str) (cur : Nat), 0 < cur →
      1 ≤ ws.countP (fun w => decide (0 < estimateVisibleLength w)) →
      acc.length + 2 ≤ (wrapGo width acc cl cur ws).length := by
  intro ws
  induction ws with
  | nil => intro acc cl cur _ h; simp [List.countP_nil] at h
  | cons w ws ih =>
    intro acc cl cur hcur h
    have hcond : 0 < cur ∧ width < (cur : Int) + 1 + (estimateVisibleLength w : Int) := by
      constructor
      · exact hcur
      · omega
    simp only [wrapGo]
    rw [if_pos hcond]
    by_cases hwpos : 0 < estimateVisibleLength w
    · have hwne : w ≠ [] := by
        intro hcontra
        subst hcontra
        simp [estimateVisibleLength, visibleAux] at hwpos
      calc acc.length + 2 = (acc ++ [cl]).length + 1 := by simp
        _ ≤ _ := wrapGo_len_cl_ne_nil width ws (acc ++ [cl]) w _ hwne
    · have hcount : 1 ≤ ws.countP (fun w => decide (0 < estimateVisibleLength w)) := by
        have hpw : decide (0 < estimateVisibleLength w) = false := by
          simp [hwpos]
        rw [List.countP_cons, hpw] at h
        simp only [Bool.false_eq_true, if_false, Nat.add_zero] at h
        omega
      calc acc.length + 2 = (acc ++ [cl]).length + 1 := by simp
        _ ≤ _ := wrapGo_len_one_pos width ws (acc ++ [cl]) w _ hcount

theorem wrapGo_len_two_pos (width : Int) (hw : width ≤ 0) :
    ∀ (ws acc : List Str) (cl : Str) (cur : Nat),
      2 ≤ ws.countP (fun w => decide (0 < estimateVisibleLength w)) →
      acc.length + 2 ≤ (wrapGo width acc cl cur ws).length := by
  intro ws
  induction ws with
  | nil => intro acc cl cur h; simp [List.countP_nil] at h
  | cons w ws ih =>
    intro acc cl cur h
    simp only [wrapGo]
    by_cases hwpos : 0 < estimateVisibleLength w
    · split
      · calc acc.length + 2 = (acc ++ [cl]).length + 1 := by simp
          _ ≤ _ := wrapGo_len_cl_ne_nil width ws (acc ++ [cl]) w _
            (by intro hc; subst hc; simp [estimateVisibleLength, visibleAux] at hwpos)
      · have hcount : 1 ≤ ws.countP (fun w => decide (0 < estimateVisibleLength w)) := by
          have hpw : decide (0 < estimateVisibleLength w) = true := by
            simp [hwpos]
          rw [List.countP_cons, hpw] at h
          simp only [if_true] at h
          omega
        split
        · exact wrapGo_len_cur_pos width hw ws acc _ _ (by omega) hcount
        · exact wrapGo_len_cur_pos width hw ws acc _ _ (by omega) hcount
    · have hcount : 2 ≤ ws.countP (fun w => decide (0 < estimateVisibleLength w)) := by
        have hpw : decide (0 < estimateVisibleLength w) = false := by
          simp [hwpos]
        rw [List.countP_cons, hpw] at h
        simp only [Bool.false_eq_true, if_false, Nat.add_zero] at h
        omega
      split
      · calc acc.length + 2 = (acc ++ [cl]).length + 1 := by simp
          _ ≤ (acc ++ [cl]).length + 2 := by omega
          _ ≤ _ := ih (acc ++ [cl]) w _ (by omega)
      · split
        · exact ih _ _ _ hcount
        · exact ih _ _ _ hcount

/-- C10 (amended): a non-positive width does not mean "no wrapping" — the
opposite: since any positive visible length exceeds the width, every such
line is word-wrapped, and a line whose space-split words include at least
two of positive visible length produces at least two output lines (so a
logical line does not yield exactly one emitted display line; see the
counterexample for the end-to-end effect). -/
theorem c10_width_nonpositive_wraps (s : Str) (width : Int)
    (hw : width ≤ 0) (hv : 1 ≤ estimateVisibleLength s)
    (hcount : 2 ≤ (splitGo ' ' s).countP
      (fun w => decide (0 < estimateVisibleLength w))) :
    2 ≤ (wrapLine s width).length := by
  unfold wrapLine
  rw [if_neg (by push_cast; omega)]
  have := wrapGo_len_two_pos width hw (splitGo ' ' s) [] [] 0 hcount
  simpa using this

/-- C10 counterexample: the model with content `"a b"`, width 0 and
numbering off has one logical (classified) line, but the compacting
renderer emits two display lines (`"a"` and `"b"`): width ≤ 0 wraps at
every word instead of disabling wrapping. -/
theorem c10_counterexample :
    (mkModel ['a', ' ', 'b'] 0 false).lines.length = 1 ∧
    renderEmits testEnv stylesPalette (mkModel ['a', ' ', 'b'] 0 false) =
      [['a'], ['b']] := by
  decide

/-- Witness for `c10_width_nonpositive_wraps` at the concrete input
`"a b"` with width 0. -/
theorem c10_witness : 2 ≤ (wrapLine ['a', ' ', 'b'] 0).length := by
  exact c10_width_nonpositive_wraps ['a', ' ', 'b'] 0 (by decide) (by decide)
    (by decide)

/-- The render-loop state (fence flag and buffer) after consuming a list
of classified lines. -/
def renderStA {L S T : Type} (env : ChromaEnv L S T) (p : Palette)
    (m : Model S) : Nat → Bool × List Line → List Line → Bool × List Line
  | _, st, [] => st
  | i, st, l :: rest => renderStA env p m (i + 1) (renderStep env p m i st l).1 rest

theorem renderStepPres_state {L S T : Type} (env : ChromaEnv L S T)
    (p : Palette) (m : Model S) (i : Nat) (st : Bool × List Line) (l : Line) :
    (renderStepPres env p m i st l).1 = (renderStep env p m i st l).1 := by
  unfold renderStep renderStepPres
  split
  · split <;> rfl
  · split <;> rfl

theorem renderGo_append {L S T : Type} (env : ChromaEnv L S T) (p : Palette)
    (m : Model S) :
    ∀ (xs : List Line) (i : Nat) (st : Bool × List Line) (ys : List Line),
      renderGo env p m i st (xs ++ ys) =
        renderGo env p m i st xs ++
          renderGo env p m (i + xs.length) (renderStA env p m i st xs) ys := by
  intro xs
  induction xs with
  | nil => intro i st ys; simp [renderGo, renderStA]
  | cons x xs ih =>
    intro i st ys
    simp only [List.cons_append, renderGo, renderStA, List.append_assoc,
      List.append_eq, List.cons.injEq]
    rw [ih (i + 1)]
    have : i + 1 + xs.length = i + (xs.length + 1) := by omega
    rw [this]
    simp

theorem renderGoPres_append {L S T : Type} (env : ChromaEnv L S T)
    (p : Palette) (m : Model S) :
    ∀ (xs : List Line) (i : Nat) (st : Bool × List Line) (ys : List Line),
      renderGoPres env p m i st (xs ++ ys) =
        renderGoPres env p m i st xs ++
          renderGoPres env p m (i + xs.length) (renderStA env p m i st xs)
            ys := by
  intro xs
  induction xs with
  | nil => intro i st ys; simp [renderGoPres, renderStA]
  | cons x xs ih =>
    intro i st ys
    simp only [List.cons_append, renderGoPres, renderStA, List.append_assoc,
      List.append_eq]
    rw [ih (i + 1), renderStepPres_state]
    have : i + 1 + xs.length = i + (xs.length + 1) := by omega
    rw [this]
    simp

theorem renderStep_inside {L S T : Type} (env : ChromaEnv L S T)
    (p : Palette) (m : Model S) (i : Nat) (buf : List Line) (l : Line)
    (h : l.type ≠ .codeFence) :
    renderStep env p m i (true, buf) l = ((true, buf ++ [l]), []) := by
  unfold renderStep
  rw [if_neg h, if_pos rfl]

theorem renderStepPres_inside {L S T : Type} (env : ChromaEnv L S T)
    (p : Palette) (m : Model S) (i : Nat) (buf : List Line) (l : Line)
    (h : l.type ≠ .codeFence) :
    renderStepPres env p m i (true, buf) l = ((true, buf ++ [l]), []) := by
  unfold renderStepPres
  rw [if_neg h, if_pos rfl]

theorem renderGo_inside {L S T : Type} (env : ChromaEnv L S T) (p : Palette)
    (m : Model S) :
    ∀ (body : List Line), (∀ l ∈ body, l.type ≠ .codeFence) →
      ∀ (i : Nat) (buf : List Line),
        renderGo env p m i (true, buf) body = [] ∧
        renderGoPres env p m i (true, buf) body = [] ∧
        renderStA env p m i (true, buf) body = (true, buf ++ body) := by
  intro body
  induction body with
  | nil => intro _ i buf; simp [renderGo, renderGoPres, renderStA]
  | cons l rest ih =>
    intro h i buf
    have hl : l.type ≠ .codeFence := h l (by simp)
    have hrest : ∀ x ∈ rest, x.type ≠ .codeFence := fun x hx => h x (by simp [hx])
    obtain ⟨h1, h2, h3⟩ := ih hrest (i + 1) (buf ++ [l])
    refine ⟨?_, ?_, ?_⟩
    · simp only [renderGo, renderStep_inside env p m i buf l hl]
      simpa using h1
    · simp only [renderGoPres, renderStepPres_inside env p m i buf l hl]
      simpa using h2
    · simp only [renderStA, renderStep_inside env p m i buf l hl]
      rw [h3]
      simp

theorem renderStep_open {L S T : Type} (env : ChromaEnv L S T) (p : Palette)
    (m : Model S) (i : Nat) (buf : List Line) (l : Line)
    (h : l.type = .codeFence) :
    renderStep env p m i (false, buf) l = ((true, []), []) := by
  unfold renderStep
  rw [if_pos h]
  rfl

theorem renderStepPres_open {L S T : Type} (env : ChromaEnv L S T)
    (p : Palette) (m : Model S) (i : Nat) (buf : List Line) (l : Line)
    (h : l.type = .codeFence) :
    renderStepPres env p m i (false, buf) l =
      ((true, []),
       [addLineNumber p m ((i : Int) + 1) (p.subtext1 l.content)]) := by
  unfold renderStepPres
  rw [if_pos h]
  rfl

theorem renderStep_close {L S T : Type} (env : ChromaEnv L S T) (p : Palette)
    (m : Model S) (i : Nat) (buf : List Line) (l : Line)
    (h : l.type = .codeFence) :
    renderStep env p m i (true, buf) l =
      ((false, []),
       mapIdxGo
         (fun j hl =>
           addLineNumber p m ((i : Int) - (buf.length : Int) + (j : Int) + 1)
             ([' ', ' '] ++ hl))
         0 ((highlightCodeBlock env m buf).take buf.length)) := by
  unfold renderStep
  rw [if_pos h]
  rfl

theorem renderStepPres_close {L S T : Type} (env : ChromaEnv L S T)
    (p : Palette) (m : Model S) (i : Nat) (buf : List Line) (l : Line)
    (h : l.type = .codeFence) :
    renderStepPres env p m i (true, buf) l =
      ((false, []),
       mapIdxGo
         (fun j hl =>
           addLineNumber p m ((i : Int) - (buf.length : Int) + (j : Int))
             ([' ', ' '] ++ hl))
         0 ((highlightCodeBlock env m buf).take buf.length) ++
       [addLineNumber p m ((i : Int) + 1) (p.subtext1 l.content)]) := by
  unfold renderStepPres
  rw [if_pos h]
  rfl

theorem mapIdxGo_congr {α β : Type} (f g : Nat → α → β)
    (h : ∀ j a, f j a = g j a) :
    ∀ (i : Nat) (xs : List α), mapIdxGo f i xs = mapIdxGo g i xs := by
  intro i xs
  induction xs generalizing i with
  | nil => rfl
  | cons a as ih => simp only [mapIdxGo, h, ih]

theorem mapIdxGo_length {α β : Type} (f : Nat → α → β) :
    ∀ (xs : List α) (i : Nat), (mapIdxGo f i xs).length = xs.length := by
  intro xs
  induction xs with
  | nil => intro i; rfl
  | cons a as ih => intro i; simp [mapIdxGo, ih]

theorem highlightCodeBlock_len_ge {L S T : Type} (env : ChromaEnv L S T)
    (m : Model S) (block : List Line) (h : block ≠ []) :
    block.length ≤ (highlightCodeBlock env m block).length := by
  match block with
  | [] => exact absurd rfl h
  | b :: bs =>
    show _ ≤ (List.length (_ ++ List.replicate _ []))
    rw [List.length_append, List.length_replicate]
    omega

/-- C7 (confirmed): when the classified lines end inside an unclosed fence
(an opening marker after which no further fence-typed line occurs), both
renderers only buffer the fence's code lines and the loop ends without a
flush: the compacting renderer's output is exactly the output for the
lines before the opener, and the preserving renderer additionally emits
only the opening marker itself — the buffered code lines appear in
neither output. -/
theorem c7_unclosed_fence_dropped {L S T : Type} (env : ChromaEnv L S T)
    (p : Palette) (m : Model S) (pre : List Line) (opener : Line)
    (rest : List Line)
    (hm : m.lines = pre ++ opener :: rest)
    (hopen : opener.type = .codeFence)
    (hrest : ∀ l ∈ rest, l.type ≠ .codeFence)
    (hst : (renderStA env p m 0 (false, []) pre).1 = false) :
    renderEmits env p m = renderGo env p m 0 (false, []) pre ∧
    renderEmitsPres env p m =
      renderGoPres env p m 0 (false, []) pre ++
        [addLineNumber p m ((pre.length : Int) + 1)
          (p.subtext1 opener.content)] := by
  rcases hstp : renderStA env p m 0 (false, []) pre with ⟨b, buf⟩
  have hb : b = false := by rw [hstp] at hst; exact hst
  subst hb
  constructor
  · rw [renderEmits, hm, renderGo_append, hstp]
    simp only [renderGo, renderStep_open env p m (0 + pre.length) buf opener hopen]
    rw [(renderGo_inside env p m rest hrest (0 + pre.length + 1) []).1]
    simp
  · rw [renderEmitsPres, hm, renderGoPres_append, hstp]
    simp only [renderGoPres,
      renderStepPres_open env p m (0 + pre.length) buf opener hopen]
    rw [(renderGo_inside env p m rest hrest (0 + pre.length + 1) []).2.1]
    simp

/-- Witness for `c7_unclosed_fence_dropped` on the input `"a\n```\nx"`
(a normal line, then a fence opened and never closed). -/
theorem c7_witness :
    renderEmits testEnv stylesPalette
      (mkModel ['a', '\n', btick, btick, btick, '\n', 'x'] 80 false) =
      [['a']] ∧
    renderEmitsPres testEnv stylesPalette
      (mkModel ['a', '\n', btick, btick, btick, '\n', 'x'] 80 false) =
      [['a'], mkStyle ['3', '7'] [btick, btick, btick]] := by
  have h := c7_unclosed_fence_dropped testEnv stylesPalette
    (mkModel ['a', '\n', btick, btick, btick, '\n', 'x'] 80 false)
    [⟨['a'], .normal, 0, []⟩] ⟨[btick, btick, btick], .codeFence, 0, []⟩
    [⟨['x'], .code, 0, []⟩] (by decide) (by decide) (by decide) (by decide)
  exact ⟨h.1.trans (by decide), h.2.trans (by decide)⟩

/-- C1 (amended): on the closing transition of a fence (opened at 0-based
index `pre.length` with body the lines strictly between the markers),
`Render` emits the `j`-th highlighted line addressed to
`pre.length + j + 2` — the original 1-based source line number of the
`j`-th buffered code line (which sits at 0-based index
`pre.length + 1 + j`), not the highlighter's own numbering — whereas
`RenderPreservingAll` addresses it to `pre.length + j + 1`, one less than
the original 1-based number, colliding with the opening marker's own
number. -/
theorem c1_flush_line_numbers {L S T : Type} (env : ChromaEnv L S T)
    (p : Palette) (m : Model S) (pre : List Line) (opener : Line)
    (body : List Line) (closer : Line) (rest : List Line)
    (hm : m.lines = pre ++ opener :: (body ++ closer :: rest))
    (hopen : opener.type = .codeFence) (hclose : closer.type = .codeFence)
    (hbody : ∀ l ∈ body, l.type ≠ .codeFence)
    (hst : (renderStA env p m 0 (false, []) pre).1 = false) :
    renderEmits env p m =
      renderGo env p m 0 (false, []) pre ++
      (mapIdxGo
        (fun j h =>
          addLineNumber p m ((pre.length : Int) + (j : Int) + 2)
            ([' ', ' '] ++ h))
        0 ((highlightCodeBlock env m body).take body.length) ++
       renderGo env p m (pre.length + body.length + 2) (false, []) rest) ∧
    renderEmitsPres env p m =
      renderGoPres env p m 0 (false, []) pre ++
      ([addLineNumber p m ((pre.length : Int) + 1) (p.subtext1 opener.content)] ++
       (mapIdxGo
         (fun j h =>
           addLineNumber p m ((pre.length : Int) + (j : Int) + 1)
             ([' ', ' '] ++ h))
         0 ((highlightCodeBlock env m body).take body.length) ++
        ([addLineNumber p m ((pre.length : Int) + (body.length : Int) + 2)
            (p.subtext1 closer.content)] ++
         renderGoPres env p m (pre.length + body.length + 2) (false, [])
           rest))) := by
  rcases hstp : renderStA env p m 0 (false, []) pre with ⟨b, buf⟩
  have hb : b = false := by rw [hstp] at hst; exact hst
  subst hb
  have hidx : 0 + pre.length + 1 + body.length + 1 =
      pre.length + body.length + 2 := by omega
  constructor
  · rw [renderEmits, hm, renderGo_append, hstp]
    congr 1
    simp only [renderGo,
      renderStep_open env p m (0 + pre.length) buf opener hopen]
    rw [List.nil_append, renderGo_append,
      (renderGo_inside env p m body hbody (0 + pre.length + 1) []).1,
      (renderGo_inside env p m body hbody (0 + pre.length + 1) []).2.2]
    simp only [renderGo,
      renderStep_close env p m (0 + pre.length + 1 + body.length)
        ([] ++ body) closer hclose]
    rw [List.nil_append, List.nil_append, hidx]
    congr 1
    apply mapIdxGo_congr
    intro j a
    congr 1
    push_cast
    ring
  · rw [renderEmitsPres, hm, renderGoPres_append, hstp]
    congr 1
    simp only [renderGoPres,
      renderStepPres_open env p m (0 + pre.length) buf opener hopen]
    congr 1
    · congr 2
      push_cast
      ring
    rw [renderGoPres_append,
      (renderGo_inside env p m body hbody (0 + pre.length + 1) []).2.1,
      (renderGo_inside env p m body hbody (0 + pre.length + 1) []).2.2]
    simp only [renderGoPres,
      renderStepPres_close env p m (0 + pre.length + 1 + body.length)
        ([] ++ body) closer hclose]
    simp only [List.nil_append, List.append_assoc]
    rw [hidx]
    congr 1
    · apply mapIdxGo_congr
      intro j a
      congr 1
      push_cast
      ring
    congr 3
    push_cast
    ring

/-- C1 counterexample: on `"```\nx\n```"` with numbering on, the code line
`x` (source line number 2) is emitted by `RenderPreservingAll` with the
line-number gutter of line 1 — the opening marker's number — and not with
its original number 2 as the claim states for both renderer variants. -/
theorem c1_counterexample :
    (renderEmitsPres testEnv stylesPalette
      (mkModel [btick, btick, btick, '\n', 'x', '\n', btick, btick, btick] 80 true))[1]? =
      some (mkStyle ['9', '0'] (fmtNum3 1) ++ [' ', ' ', 'H', 'x']) ∧
    (renderEmitsPres testEnv stylesPalette
      (mkModel [btick, btick, btick, '\n', 'x', '\n', btick, btick, btick] 80 true))[1]? ≠
      some (mkStyle ['9', '0'] (fmtNum3 2) ++ [' ', ' ', 'H', 'x']) ∧
    renderEmits testEnv stylesPalette
      (mkModel [btick, btick, btick, '\n', 'x', '\n', btick, btick, btick] 80 true) =
      [mkStyle ['9', '0'] (fmtNum3 2) ++ [' ', ' ', 'H', 'x']] := by
  decide

/-- Witness for `c1_flush_line_numbers` on `"```\nx\n```"` with numbering
on: the compacting renderer numbers the code line 2 (its original source
number), the preserving renderer numbers it 1. -/
theorem c1_witness :
    renderEmits testEnv stylesPalette
      (mkModel [btick, btick, btick, '\n', 'x', '\n', btick, btick, btick] 80 true) =
      [mkStyle ['9', '0'] (fmtNum3 2) ++ [' ', ' ', 'H', 'x']] ∧
    renderEmitsPres testEnv stylesPalette
      (mkModel [btick, btick, btick, '\n', 'x', '\n', btick, btick, btick] 80 true) =
      [mkStyle ['9', '0'] (fmtNum3 1) ++ mkStyle ['3', '7'] [btick, btick, btick],
       mkStyle ['9', '0'] (fmtNum3 1) ++ [' ', ' ', 'H', 'x'],
       mkStyle ['9', '0'] (fmtNum3 3) ++ mkStyle ['3', '7'] [btick, btick, btick]] := by
  have h := c1_flush_line_numbers testEnv stylesPalette
    (mkModel [btick, btick, btick, '\n', 'x', '\n', btick, btick, btick] 80 true)
    [] ⟨[btick, btick, btick], .codeFence, 0, []⟩ [⟨['x'], .code, 0, []⟩]
    ⟨[btick, btick, btick], .codeFence, 0, []⟩ [] (by decide) (by decide)
    (by decide) (by decide) (by decide)
  exact ⟨h.1.trans (by decide), h.2.trans (by decide)⟩

/-- C8 (confirmed): for a non-empty block, `highlightCodeBlock` returns at
least as many elements as the block, and its result is the newline-split
highlighter output padded with empty strings; when the concatenated buffer
is empty or all-whitespace, the highlighting step short-circuits to the
empty string uniformly in the chroma environment — the lexer and formatter
are never consulted (`highlightCodeBlock` then returns one empty string
per block line). -/
theorem c8_highlight_block_padding {L S T : Type} (env : ChromaEnv L S T)
    (m : Model S) (block : List Line) (hb : block ≠ []) :
    block.length ≤ (highlightCodeBlock env m block).length ∧
    (∀ b bs, block = b :: bs →
      ∃ k, highlightCodeBlock env m block =
        splitGo '\n' (highlightWithChroma env m
          ((block.map (fun l => l.content ++ ['\n'])).flatten) b.codeLang) ++
        List.replicate k []) ∧
    (trimSpaceGo ((block.map (fun l => l.content ++ ['\n'])).flatten) = [] →
      ∀ (env2 : ChromaEnv L S T) (lang : Str),
        highlightWithChroma env2 m
          ((block.map (fun l => l.content ++ ['\n'])).flatten) lang = []) := by
  refine ⟨highlightCodeBlock_len_ge env m block hb, ?_, ?_⟩
  · intro b bs hblock
    subst hblock
    exact ⟨_, rfl⟩
  · intro hws env2 lang
    unfold highlightWithChroma
    rw [if_pos hws]

/-- Witness for `c8_highlight_block_padding`: a one-line all-whitespace
block short-circuits (the highlighting step returns the empty string for
every chroma environment), and the padded result still has one element
per block line. -/
theorem c8_witness :
    1 ≤ (highlightCodeBlock testEnv (mkModel [] 80 false)
      [⟨[' ', ' '], .code, 0, []⟩]).length ∧
    highlightWithChroma testEnv (mkModel [] 80 false)
      (([⟨[' ', ' '], .code, 0, []⟩] : List Line).map
        (fun l => l.content ++ ['\n'])).flatten [] = [] := by
  constructor
  · exact (c8_highlight_block_padding testEnv (mkModel [] 80 false)
      [⟨[' ', ' '], .code, 0, []⟩] (by decide)).1
  · exact (c8_highlight_block_padding testEnv (mkModel [] 80 false)
      [⟨[' ', ' '], .code, 0, []⟩] (by decide)).2.2 (by decide) testEnv []

/-- C9 (confirmed): the highlighting step normalizes the language hint by
lower-casing and trimming (hints with equal normal forms give equal
results); the lexer is selected by the chain hint-lookup → content
analysis → default-lexer lookup → fallback lexer; and any tokenisation or
formatting error returns the non-whitespace code buffer unchanged — in
particular a tokeniser that always errors yields exactly the plain code. -/
theorem c9_highlight_fallback_chain {L S T : Type} (env : ChromaEnv L S T)
    (m : Model S) (code lang : Str) :
    (∀ lang2, toLowerGo (trimSpaceGo lang) = toLowerGo (trimSpaceGo lang2) →
      highlightWithChroma env m code lang =
        highlightWithChroma env m code lang2) ∧
    (∀ l, env.getLexer (toLowerGo (trimSpaceGo lang)) = some l →
      selectLexer env m code (toLowerGo (trimSpaceGo lang)) = l) ∧
    (env.getLexer (toLowerGo (trimSpaceGo lang)) = none →
      ∀ l, env.analyse code = some l →
        selectLexer env m code (toLowerGo (trimSpaceGo lang)) = l) ∧
    (env.getLexer (toLowerGo (trimSpaceGo lang)) = none →
      env.analyse code = none →
      ∀ l, env.getLexer m.defaultLexer = some l →
        selectLexer env m code (toLowerGo (trimSpaceGo lang)) = l) ∧
    (env.getLexer (toLowerGo (trimSpaceGo lang)) = none →
      env.analyse code = none → env.getLexer m.defaultLexer = none →
      selectLexer env m code (toLowerGo (trimSpaceGo lang)) =
        env.fallbackLexer) ∧
    (trimSpaceGo code ≠ [] →
      env.tokenise (selectLexer env m code (toLowerGo (trimSpaceGo lang)))
        code = none →
      highlightWithChroma env m code lang = code) ∧
    (trimSpaceGo code ≠ [] → (∀ s t, env.format s t = none) →
      highlightWithChroma env m code lang = code) ∧
    ((∀ l c, env.tokenise l c = none) → trimSpaceGo code ≠ [] →
      highlightWithChroma env m code lang = code) := by
  refine ⟨?_, ?_, ?_, ?_, ?_, ?_, ?_, ?_⟩
  · intro lang2 h
    unfold highlightWithChroma
    rw [h]
  · intro l h
    unfold selectLexer
    rw [h]
  · intro h1 l h2
    unfold selectLexer
    rw [h1, h2]
  · intro h1 h2 l h3
    unfold selectLexer
    rw [h1, h2, h3]
  · intro h1 h2 h3
    unfold selectLexer
    rw [h1, h2, h3]
  · intro hc htok
    unfold highlightWithChroma
    rw [if_neg hc]
    dsimp only
    rw [htok]
  · intro hc hfmt
    unfold highlightWithChroma
    rw [if_neg hc]
    dsimp only
    cases env.tokenise (selectLexer env m code (toLowerGo (trimSpaceGo lang)))
        code with
    | none => rfl
    | some t =>
      dsimp only
      rw [hfmt]
  · intro htok hc
    unfold highlightWithChroma
    rw [if_neg hc]
    dsimp only
    rw [htok]

/-- An always-failing chroma environment: every lookup, the analysis, the
tokeniser and the formatter fail. -/
def failEnv : ChromaEnv Unit Unit Unit where
  getLexer := fun _ => none
  analyse := fun _ => none
  fallbackLexer := ()
  getStyle := fun _ => none
  fallbackStyle := ()
  tokenise := fun _ _ => none
  format := fun _ _ => none

/-- Witness for `c9_highlight_fallback_chain`: with the always-erroring
environment the output equals the plain code, the hint `" PY"` is treated
like `"py"`, and the lexer selection lands on the fallback lexer. -/
theorem c9_witness :
    highlightWithChroma failEnv (mkModel [] 80 false) ['x'] [' ', 'P', 'Y'] =
      ['x'] ∧
    highlightWithChroma failEnv (mkModel [] 80 false) ['x'] [' ', 'P', 'Y'] =
      highlightWithChroma failEnv (mkModel [] 80 false) ['x'] ['p', 'y'] ∧
    selectLexer failEnv (mkModel [] 80 false) ['x']
      (toLowerGo (trimSpaceGo [' ', 'P', 'Y'])) = failEnv.fallbackLexer := by
  refine ⟨?_, ?_, ?_⟩
  · exact (c9_highlight_fallback_chain failEnv (mkModel [] 80 false) ['x']
      [' ', 'P', 'Y']).2.2.2.2.2.2.2 (fun _ _ => rfl) (by decide)
  · exact (c9_highlight_fallback_chain failEnv (mkModel [] 80 false) ['x']
      [' ', 'P', 'Y']).1 ['p', 'y'] (by decide)
  · exact (c9_highlight_fallback_chain failEnv (mkModel [] 80 false) ['x']
      [' ', 'P', 'Y']).2.2.2.2.1 rfl rfl rfl

/-- The emissions of the render loop over a stretch of non-fence lines
outside any fence (one `emitPlain` group per line, with advancing index). -/
def renderPlain {S : Type} (p : Palette) (m : Model S) :
    Nat → List Line → List Str
  | _, [] => []
  | i, l :: rest => emitPlain p m i l ++ renderPlain p m (i + 1) rest

/-- Preserving-variant counterpart of `renderPlain`. -/
def renderPlainPres {S : Type} (p : Palette) (m : Model S) :
    Nat → List Line → List Str
  | _, [] => []
  | i, l :: rest => emitPlainPres p m i l ++ renderPlainPres p m (i + 1) rest

theorem renderGo_outside {L S T : Type} (env : ChromaEnv L S T) (p : Palette)
    (m : Model S) :
    ∀ (ls : List Line), (∀ l ∈ ls, l.type ≠ .codeFence) →
      ∀ (i : Nat) (buf : List Line),
        renderGo env p m i (false, buf) ls = renderPlain p m i ls ∧
        renderGoPres env p m i (false, buf) ls = renderPlainPres p m i ls ∧
        renderStA env p m i (false, buf) ls = (false, buf) := by
  intro ls
  induction ls with
  | nil =>
    intro _ i buf
    exact ⟨rfl, rfl, rfl⟩
  | cons l rest ih =>
    intro h i buf
    have hl : l.type ≠ .codeFence := h l (by simp)
    have hrest : ∀ x ∈ rest, x.type ≠ .codeFence :=
      fun x hx => h x (by simp [hx])
    have hstep : renderStep env p m i (false, buf) l =
        ((false, buf), emitPlain p m i l) := by
      unfold renderStep
      rw [if_neg hl]
      rfl
    have hstepPres : renderStepPres env p m i (false, buf) l =
        ((false, buf), emitPlainPres p m i l) := by
      unfold renderStepPres
      rw [if_neg hl]
      rfl
    obtain ⟨h1, h2, h3⟩ := ih hrest (i + 1) buf
    refine ⟨?_, ?_, ?_⟩
    · simp only [renderGo, hstep, renderPlain, h1]
    · simp only [renderGoPres, hstepPres, renderPlainPres, h2]
    · simp only [renderStA, hstep, h3]

/-- A model over given content for an arbitrary chroma-style type, with
the defaults of `New` (no style pointer, so results are uniform in it). -/
def mkModelG (S : Type) (content : Str) (width : Int) (nums : Bool) :
    Model S :=
  { content := content, width := width, lines := parseLines content,
    lineNumbers := nums, chromaStyle := none,
    defaultLexer := ['t', 'e', 'x', 't'],
    terminalTheme := ['d', 'a', 'r', 'k'] }

/-- The end-to-end input of the spec's test:
`"# Title\nSome *text*.\n\n```py\nprint(1)\n```\n"` with a blank line after
the title. -/
def c3Content : Str :=
  ['#', ' ', 'T', 'i', 't', 'l', 'e', '\n', '\n', 'S', 'o', 'm', 'e', ' ',
   '*', 't', 'e', 'x', 't', '*', '.', '\n', '\n', btick, btick, btick, 'p', 'y',
   '\n', 'p', 'r', 'i', 'n', 't', '(', '1', ')', '\n', btick, btick, btick, '\n']

/-- The four classified lines before the fence of `c3Content`. -/
def c3Pre : List Line :=
  [⟨['T', 'i', 't', 'l', 'e'], .header, 1, []⟩,
   ⟨[], .empty, 0, []⟩,
   ⟨['S', 'o', 'm', 'e', ' ', '*', 't', 'e', 'x', 't', '*', '.'], .normal, 0, []⟩,
   ⟨[], .empty, 0, []⟩]

/-- The opening fence marker of `c3Content`. -/
def c3Opener : Line := ⟨[btick, btick, btick, 'p', 'y'], .codeFence, 0, ['p', 'y']⟩

/-- The one buffered code line of `c3Content`. -/
def c3Body : List Line :=
  [⟨['p', 'r', 'i', 'n', 't', '(', '1', ')'], .code, 0, ['p', 'y']⟩]

/-- The closing fence marker of `c3Content`. -/
def c3Closer : Line := ⟨[btick, btick, btick], .codeFence, 0, []⟩

/-- The trailing empty classified line of `c3Content` (from the trailing
newline). -/
def c3Rest : List Line := [⟨[], .empty, 0, []⟩]

theorem renderGo_cons {L S T : Type} (env : ChromaEnv L S T) (p : Palette)
    (m : Model S) (i : Nat) (st : Bool × List Line) (l : Line)
    (rest : List Line) :
    renderGo env p m i st (l :: rest) =
      (renderStep env p m i st l).2 ++
        renderGo env p m (i + 1) (renderStep env p m i st l).1 rest := rfl

theorem renderGoPres_cons {L S T : Type} (env : ChromaEnv L S T)
    (p : Palette) (m : Model S) (i : Nat) (st : Bool × List Line) (l : Line)
    (rest : List Line) :
    renderGoPres env p m i st (l :: rest) =
      (renderStepPres env p m i st l).2 ++
        renderGoPres env p m (i + 1) (renderStepPres env p m i st l).1
          rest := rfl

/-- C3 (amended): on the spec's end-to-end input with width 80 and
numbering off, and for every chroma environment, the compacting renderer
emits exactly 6 display lines — title, blank, body, blank, one highlighted
code line, and one trailing blank line stemming from the input's trailing
newline (one `Line` per split piece), with no fence-marker lines — and the
preserving renderer emits exactly 8 lines, the same plus the two fence
markers. -/
theorem c3_end_to_end_line_counts {L S T : Type} (env : ChromaEnv L S T) :
    (renderEmits env stylesPalette (mkModelG S c3Content 80 false)).length =
      6 ∧
    (renderEmitsPres env stylesPalette
      (mkModelG S c3Content 80 false)).length = 8 := by
  have hm : (mkModelG S c3Content 80 false).lines =
      c3Pre ++ c3Opener :: (c3Body ++ c3Closer :: c3Rest) := rfl
  have hopen : c3Opener.type = .codeFence := by decide
  have hclose : c3Closer.type = .codeFence := by decide
  have hbody : ∀ l ∈ c3Body, l.type ≠ .codeFence := by decide
  have hprenf : ∀ l ∈ c3Pre, l.type ≠ .codeFence := by decide
  have hrestnf : ∀ l ∈ c3Rest, l.type ≠ .codeFence := by decide
  obtain ⟨hpre1, hpre2, hpre3⟩ :=
    renderGo_outside env stylesPalette (mkModelG S c3Content 80 false)
      c3Pre hprenf 0 []
  have hlen1 : 1 ≤ (highlightCodeBlock env (mkModelG S c3Content 80 false)
      c3Body).length := by
    have h := highlightCodeBlock_len_ge env (mkModelG S c3Content 80 false)
      c3Body (by decide)
    simpa [c3Body] using h
  have hmin : min c3Body.length
      (highlightCodeBlock env (mkModelG S c3Content 80 false)
        c3Body).length = 1 := by
    have hc : c3Body.length = 1 := rfl
    rw [hc]
    exact Nat.min_eq_left hlen1
  constructor
  · rw [renderEmits, hm, renderGo_append, hpre3, hpre1, renderGo_cons,
      renderStep_open env stylesPalette (mkModelG S c3Content 80 false)
        (0 + c3Pre.length) [] c3Opener hopen]
    dsimp only
    rw [List.nil_append, renderGo_append,
      (renderGo_inside env stylesPalette (mkModelG S c3Content 80 false)
        c3Body hbody (0 + c3Pre.length + 1) []).1,
      (renderGo_inside env stylesPalette (mkModelG S c3Content 80 false)
        c3Body hbody (0 + c3Pre.length + 1) []).2.2,
      List.nil_append, List.nil_append, renderGo_cons,
      renderStep_close env stylesPalette (mkModelG S c3Content 80 false)
        (0 + c3Pre.length + 1 + c3Body.length) c3Body c3Closer hclose]
    dsimp only
    rw [(renderGo_outside env stylesPalette (mkModelG S c3Content 80 false)
      c3Rest hrestnf (0 + c3Pre.length + 1 + c3Body.length + 1) []).1]
    have h1 : (renderPlain stylesPalette (mkModelG S c3Content 80 false)
        0 c3Pre).length = 4 := rfl
    have h2 : (renderPlain stylesPalette (mkModelG S c3Content 80 false)
        (0 + c3Pre.length + 1 + c3Body.length + 1) c3Rest).length = 1 := rfl
    simp only [List.length_append, h1, h2, mapIdxGo_length,
      List.length_take, hmin]
  · rw [renderEmitsPres, hm, renderGoPres_append, hpre3, hpre2,
      renderGoPres_cons,
      renderStepPres_open env stylesPalette (mkModelG S c3Content 80 false)
        (0 + c3Pre.length) [] c3Opener hopen]
    dsimp only
    rw [renderGoPres_append,
      (renderGo_inside env stylesPalette (mkModelG S c3Content 80 false)
        c3Body hbody (0 + c3Pre.length + 1) []).2.1,
      (renderGo_inside env stylesPalette (mkModelG S c3Content 80 false)
        c3Body hbody (0 + c3Pre.length + 1) []).2.2,
      renderGoPres_cons,
      renderStepPres_close env stylesPalette (mkModelG S c3Content 80 false)
        (0 + c3Pre.length + 1 + c3Body.length) ([] ++ c3Body) c3Closer
        hclose]
    dsimp only
    simp only [List.nil_append]
    rw [(renderGo_outside env stylesPalette (mkModelG S c3Content 80 false)
      c3Rest hrestnf (0 + c3Pre.length + 1 + c3Body.length + 1) []).2.1]
    have h1 : (renderPlainPres stylesPalette (mkModelG S c3Content 80 false)
        0 c3Pre).length = 4 := rfl
    have h2 : (renderPlainPres stylesPalette (mkModelG S c3Content 80 false)
        (0 + c3Pre.length + 1 + c3Body.length + 1) c3Rest).length = 1 := rfl
    simp only [List.length_append, h1, h2, mapIdxGo_length,
      List.length_take, hmin, List.length_cons, List.length_nil]

/-- C3 counterexample: on the spec's end-to-end input the compacting
renderer emits 6 display lines, not the claimed 4+1 = 5 (the trailing
newline contributes a trailing blank line), and the preserving renderer
emits 8 lines, not the claimed 6. -/
theorem c3_counterexample :
    (renderEmits testEnv stylesPalette (mkModel c3Content 80 false)).length =
      6 ∧
    (renderEmits testEnv stylesPalette
      (mkModel c3Content 80 false)).length ≠ 5 ∧
    (renderEmitsPres testEnv stylesPalette
      (mkModel c3Content 80 false)).length = 8 ∧
    (renderEmitsPres testEnv stylesPalette
      (mkModel c3Content 80 false)).length ≠ 6 := by
  decide

/-- Witness for `c3_end_to_end_line_counts` at a concrete chroma
environment. -/
theorem c3_witness :
    (renderEmits testEnv stylesPalette
      (mkModelG Unit c3Content 80 false)).length = 6 ∧
    (renderEmitsPres testEnv stylesPalette
      (mkModelG Unit c3Content 80 false)).length = 8 :=
  c3_end_to_end_line_counts testEnv
